import Mathlib

/-!
Verification of the `agentusage` usage-scraping tool.

This file gives a shallow embedding, in Lean 4, of the pure computational
core of the repository: the three screen-scraping output routines
(`parse_claude_output`, `parse_codex_output`, `parse_gemini_output` in
`src/parser.rs`), the reset-time normalisation (`parse_reset_minutes_at`
and its three provider helpers), the dialog detectors (`src/dialog.rs`),
the split-chunk query detector (`detect_query_in_stream` in `src/pty.rs`),
`strip_error_tags` (`src/main.rs`) and `pick_richer` (`src/lib.rs` and
`src/main.rs`).

Modelling conventions:
* Rust `&str` values are modelled as `List Char` (`Str` below).  All the
  strings the program manipulates are treated at char granularity, which
  agrees with Rust's byte-level matching on ASCII needles (a UTF-8
  multi-byte character never contains an ASCII byte).
* Regular expressions from the `regex` crate (leftmost-first match
  semantics) are embedded as bespoke deterministic scanners.  Each scanner
  carries a comment giving the original pattern; where greedy/lazy
  backtracking can matter the scanner reproduces the backtracking order
  explicitly (try the longer alternative first for greedy pieces, the
  shorter one first for lazy pieces).
* `f64` percentages parsed from `(\d+(?:\.\d+)?)` are modelled as exact
  decimals (integer part plus fraction digits).  No claim in this
  development depends on double-precision rounding of the parsed literal.
* Machine integers: Rust `i64` arithmetic is modelled on `Int` with an
  explicit two's-complement wrap (`wrap64`) at the operations where the
  release-profile Rust code would wrap, and `i64::from_str` is modelled
  with its range check.  `u32` saturating casts are modelled by `toU32`.
* `chrono` datetimes are modelled as `Int` seconds since the Unix epoch,
  `NaiveDate` as `Int` days since the epoch, and a `chrono_tz::Tz` as a
  fixed UTC offset in seconds taken from a finite table (time zones are
  treated as fixed offsets; no claim here depends on DST transitions).
  The ambient `Local` zone is modelled as an explicit offset parameter.
-/

namespace AgentUsage

abbrev Str := List Char

/-- Whitespace test used both for `str::trim` and for the regex class
`\s` (ASCII whitespace; the Unicode extras never occur in the inputs the
program handles). -/
def isSpc (c : Char) : Bool :=
  c = ' ' || c = '\t' || c = '\n' || c = '\r' || c = '\x0b' || c = '\x0c'

/-- ASCII lowercasing, modelling `str::to_lowercase` / `eq_ignore_ascii_case`
on the ASCII inputs involved. -/
def lowerChar (c : Char) : Char :=
  if 'A' ≤ c && c ≤ 'Z' then Char.ofNat (c.toNat + 32) else c

def toLower (s : Str) : Str := s.map lowerChar

/-- Rust `str::trim`: drop whitespace from both ends. -/
def trimChars (s : Str) : Str :=
  ((s.dropWhile isSpc).reverse.dropWhile isSpc).reverse

/-- Substring test: `hay.contains(needle)` in Rust, and also
`combined.windows(q.len()).any(|w| w == q)` from `detect_query_in_stream`
(for a nonempty `q`, a window equal to `q` exists iff `q` occurs as a
contiguous subsequence). -/
def substringOf {α : Type} [DecidableEq α] (needle : List α) : List α → Bool
  | [] => needle.isEmpty
  | c :: cs => needle.isPrefixOf (c :: cs) || substringOf needle cs

-- ──────────────────────────────────────────────────────────────────────
-- Data model (src/types.rs)
-- ──────────────────────────────────────────────────────────────────────

inductive PercentKind where
  | Used : PercentKind
  | Left : PercentKind
deriving DecidableEq, Repr

inductive DialogKind where
  | TrustFolder : DialogKind
  | UpdatePrompt : DialogKind
  | AuthRequired : DialogKind
  | TermsAcceptance : DialogKind
  | FirstRunSetup : DialogKind
  | SandboxTrust : DialogKind
  | Unknown : Str → DialogKind
deriving DecidableEq, Repr

structure UsageEntry where
  label : Str
  percent_used : Nat
  percent_remaining : Nat
  percent_kind : PercentKind
  reset_info : Str
  reset_minutes : Option Int
  spent : Option Str
  requests : Option Str
deriving DecidableEq, Repr

structure UsageData where
  provider : Str
  entries : List UsageEntry
deriving DecidableEq, Repr

-- ──────────────────────────────────────────────────────────────────────
-- Dialog detection (src/dialog.rs)
-- ──────────────────────────────────────────────────────────────────────

def AUTH_PHRASES : List Str :=
  [ "sign in required".data
  , "log in required".data
  , "login required".data
  , "please sign in".data
  , "please log in".data
  , "you need to sign in".data
  , "you need to log in".data
  , "sign in to continue".data
  , "log in to continue".data
  , "sign in with".data
  , "log in with".data
  , "must authenticate".data
  , "please authenticate".data
  , "authentication required".data
  , "authenticate before using".data
  ]

def is_auth_required_prompt (lower : Str) : Bool :=
  AUTH_PHRASES.any (fun phrase => substringOf phrase lower)

def looks_like_update_prompt (content : Str) : Bool :=
  let lower := toLower content
  substringOf "update available".data lower || substringOf "new version".data lower

/-- `detect_claude_dialog` from src/dialog.rs. -/
def detect_claude_dialog (content : Str) : Option DialogKind :=
  let lower := toLower content
  if looks_like_update_prompt content then some DialogKind.UpdatePrompt
  else if is_auth_required_prompt lower then some DialogKind.AuthRequired
  else if substringOf "welcome to claude".data lower
          || substringOf "first time".data lower then
    some DialogKind.FirstRunSetup
  else none

/-- `detect_codex_dialog` from src/dialog.rs. -/
def detect_codex_dialog (content : Str) : Option DialogKind :=
  let lower := toLower content
  if substringOf "update available".data lower && substringOf "codex".data lower then
    some DialogKind.UpdatePrompt
  else if substringOf "terms".data lower && substringOf "accept".data lower then
    some DialogKind.TermsAcceptance
  else if substringOf "do you trust the contents".data lower
          || (substringOf "trust".data lower && substringOf "directory".data lower) then
    some DialogKind.TrustFolder
  else if substringOf "sandbox".data lower && substringOf "trust".data lower then
    some DialogKind.SandboxTrust
  else if is_auth_required_prompt lower then some DialogKind.AuthRequired
  else none

/-- `detect_gemini_dialog` from src/dialog.rs. -/
def detect_gemini_dialog (content : Str) : Option DialogKind :=
  let lower := toLower content
  if substringOf "do you trust this folder".data lower then
    some DialogKind.TrustFolder
  else if substringOf "select a theme".data lower
          || substringOf "choose a theme".data lower
          || substringOf "color theme".data lower then
    some DialogKind.FirstRunSetup
  else if looks_like_update_prompt content && !substringOf "extension".data lower then
    some DialogKind.UpdatePrompt
  else if substringOf "terms".data lower
          && (substringOf "accept".data lower || substringOf "agree".data lower) then
    some DialogKind.TermsAcceptance
  else if is_auth_required_prompt lower then some DialogKind.AuthRequired
  else none

/-- First kind in a priority list whose phrase predicate matches; the
formulation of the spec's "fixed priority list, first match wins". -/
def firstMatchingDialog (rules : List (DialogKind × (Str → Bool))) (content : Str) :
    Option DialogKind :=
  match rules with
  | [] => none
  | (k, p) :: rest =>
    if p content then some k else firstMatchingDialog rest content

/-- Claude's priority list per the spec: UpdatePrompt, AuthRequired,
FirstRunSetup. -/
def claudeDialogPriority : List (DialogKind × (Str → Bool)) :=
  [ (DialogKind.UpdatePrompt, fun content => looks_like_update_prompt content)
  , (DialogKind.AuthRequired, fun content => is_auth_required_prompt (toLower content))
  , (DialogKind.FirstRunSetup, fun content =>
      substringOf "welcome to claude".data (toLower content)
      || substringOf "first time".data (toLower content))
  ]

/-- Codex's priority list per the spec: UpdatePrompt (requiring both
"update available" and "codex"), TermsAcceptance, TrustFolder,
SandboxTrust, AuthRequired. -/
def codexDialogPriority : List (DialogKind × (Str → Bool)) :=
  [ (DialogKind.UpdatePrompt, fun content =>
      substringOf "update available".data (toLower content)
      && substringOf "codex".data (toLower content))
  , (DialogKind.TermsAcceptance, fun content =>
      substringOf "terms".data (toLower content)
      && substringOf "accept".data (toLower content))
  , (DialogKind.TrustFolder, fun content =>
      substringOf "do you trust the contents".data (toLower content)
      || (substringOf "trust".data (toLower content)
          && substringOf "directory".data (toLower content)))
  , (DialogKind.SandboxTrust, fun content =>
      substringOf "sandbox".data (toLower content)
      && substringOf "trust".data (toLower content))
  , (DialogKind.AuthRequired, fun content => is_auth_required_prompt (toLower content))
  ]

/-- Gemini's priority list per the spec: TrustFolder, FirstRunSetup (theme
pickers), UpdatePrompt (excluded when "extension" is present),
TermsAcceptance, AuthRequired. -/
def geminiDialogPriority : List (DialogKind × (Str → Bool)) :=
  [ (DialogKind.TrustFolder, fun content =>
      substringOf "do you trust this folder".data (toLower content))
  , (DialogKind.FirstRunSetup, fun content =>
      substringOf "select a theme".data (toLower content)
      || substringOf "choose a theme".data (toLower content)
      || substringOf "color theme".data (toLower content))
  , (DialogKind.UpdatePrompt, fun content =>
      looks_like_update_prompt content
      && !substringOf "extension".data (toLower content))
  , (DialogKind.TermsAcceptance, fun content =>
      substringOf "terms".data (toLower content)
      && (substringOf "accept".data (toLower content)
          || substringOf "agree".data (toLower content)))
  , (DialogKind.AuthRequired, fun content => is_auth_required_prompt (toLower content))
  ]

-- ──────────────────────────────────────────────────────────────────────
-- pick_richer (src/lib.rs, src/main.rs — both copies are identical)
-- ──────────────────────────────────────────────────────────────────────

def pick_richer (a b : UsageData) : UsageData :=
  if a.entries.length ≥ b.entries.length then a else b

-- ──────────────────────────────────────────────────────────────────────
-- strip_error_tags (src/main.rs)
-- ──────────────────────────────────────────────────────────────────────

/-- Fuel-driven core of Rust `str::replace(pat, "")` for a nonempty
pattern `p :: ps`: remove the leftmost occurrence, continue after it
(matches are non-overlapping, scanning left to right). -/
def replaceMatchesF (p : Char) (ps : Str) : Nat → Str → Str
  | _, [] => []
  | 0, s => s
  | fuel + 1, c :: cs =>
    if (p :: ps).isPrefixOf (c :: cs) then
      replaceMatchesF p ps fuel ((c :: cs).drop (p :: ps).length)
    else
      c :: replaceMatchesF p ps fuel cs

/-- Rust `s.replace(pat, "")`.  (With an empty pattern the replacement
string is inserted at every boundary; since the replacement is empty the
result is `s` itself.) -/
def replaceWithEmpty (s pat : Str) : Str :=
  match pat with
  | [] => s
  | p :: ps => replaceMatchesF p ps s.length s

/-- `strip_error_tags` from src/main.rs:
`msg.replace("[tool-missing] ", "").replace("[timeout] ", "").replace("[parse-failure] ", "")`. -/
def strip_error_tags (msg : Str) : Str :=
  replaceWithEmpty
    (replaceWithEmpty (replaceWithEmpty msg "[tool-missing] ".data) "[timeout] ".data)
    "[parse-failure] ".data

-- ──────────────────────────────────────────────────────────────────────
-- detect_query_in_stream (src/pty.rs)
-- ──────────────────────────────────────────────────────────────────────

/-- `detect_query_in_stream` from src/pty.rs, on byte values (modelled as
`Nat`; only equality of bytes is used).  Returns the `found` flag and the
updated tail buffer: the Rust function mutates `tail` in place, so the
model returns it.  `combined.windows(query.len()).any(|w| w == query)` is
modelled by `substringOf query combined`. -/
def detect_query_in_stream (tail chunk query : List Nat) : Bool × List Nat :=
  (substringOf query (tail ++ chunk),
   if query.length - 1 > 0 then
     if (tail ++ chunk).length ≥ query.length - 1 then
       (tail ++ chunk).drop ((tail ++ chunk).length - (query.length - 1))
     else tail ++ chunk
   else [])

/-- Feed the chunks of a stream through `detect_query_in_stream` in order,
threading the tail buffer, and collect the per-chunk results.  This is the
read-loop usage pattern in src/pty.rs (one call per drained chunk). -/
def detect_stream_run (query : List Nat) : List Nat → List (List Nat) → List Bool
  | _, [] => []
  | tail, c :: cs =>
    let r := detect_query_in_stream tail c query
    r.fst :: detect_stream_run query r.snd cs



-- ──────────────────────────────────────────────────────────────────────
-- Helper lemmas: substrings and right-takes
-- ──────────────────────────────────────────────────────────────────────

lemma isPrefixOf_self_append {α : Type} [DecidableEq α] (q t : List α) :
    q.isPrefixOf (q ++ t) = true := by
  induction q with
  | nil => simp [List.isPrefixOf]
  | cons c cs ih => simp [List.isPrefixOf, ih]

lemma substringOf_nil_left {α : Type} [DecidableEq α] (l : List α) :
    substringOf ([] : List α) l = true := by
  cases l with
  | nil => rfl
  | cons c cs => simp [substringOf, List.isPrefixOf]

lemma substringOf_self_append {α : Type} [DecidableEq α] (q t : List α) :
    substringOf q (q ++ t) = true := by
  cases q with
  | nil => exact substringOf_nil_left t
  | cons c cs =>
    simp only [List.cons_append, substringOf, List.append_eq]
    rw [show (c :: cs).isPrefixOf (c :: (cs ++ t)) = true from isPrefixOf_self_append (c :: cs) t]
    simp

lemma substringOf_append_right {α : Type} [DecidableEq α] (q x m : List α)
    (h : substringOf q m = true) : substringOf q (x ++ m) = true := by
  induction x with
  | nil => simpa using h
  | cons y ys ih =>
    simp only [List.cons_append, substringOf, List.append_eq]
    rw [ih]
    simp

lemma rtake_append_rtake (m : Nat) (a b : List Nat) :
    (a.rtake m ++ b).rtake m = (a ++ b).rtake m := by
  rw [List.rtake_eq_reverse_take_reverse (a.rtake m ++ b) m,
    List.rtake_eq_reverse_take_reverse (a ++ b) m,
    List.reverse_append, List.reverse_append,
    List.rtake_eq_reverse_take_reverse a m, List.reverse_reverse,
    List.take_append_eq_append_take, List.take_append_eq_append_take,
    List.take_take, Nat.min_eq_left (Nat.sub_le _ _)]

lemma rtake_append_drop_eq (m : Nat) (a b : List Nat) :
    a.rtake m ++ b = (a ++ b).drop (a.length - m) := by
  rw [List.rtake, List.drop_append_of_le_length (Nat.sub_le _ _)]

-- ──────────────────────────────────────────────────────────────────────
-- detect_query_in_stream: component lemmas
-- ──────────────────────────────────────────────────────────────────────

lemma detect_query_fst (tail chunk query : List Nat) :
    (detect_query_in_stream tail chunk query).fst
      = substringOf query (tail ++ chunk) := rfl

lemma detect_query_snd (tail chunk query : List Nat) :
    (detect_query_in_stream tail chunk query).snd
      = (tail ++ chunk).rtake (query.length - 1) := by
  show (if query.length - 1 > 0 then
          if (tail ++ chunk).length ≥ query.length - 1 then
            (tail ++ chunk).drop ((tail ++ chunk).length - (query.length - 1))
          else tail ++ chunk
        else []) = (tail ++ chunk).rtake (query.length - 1)
  by_cases h0 : query.length - 1 = 0
  · rw [h0]
    simp [List.rtake, List.drop_length]
  · have hpos : query.length - 1 > 0 := Nat.pos_of_ne_zero h0
    rw [if_pos hpos]
    by_cases h2 : (tail ++ chunk).length ≥ query.length - 1
    · rw [if_pos h2, List.rtake]
    · rw [if_neg h2, List.rtake]
      have hz : (tail ++ chunk).length - (query.length - 1) = 0 := by omega
      rw [hz, List.drop_zero]

lemma substring_in_rtake_of_split (q : List Nat) (hq : q ≠ []) (a b s t : List Nat)
    (hsplit : a ++ b = (s ++ q) ++ t) (hend : t.length < b.length) :
    substringOf q (a.rtake (q.length - 1) ++ b) = true := by
  have hql : 1 ≤ q.length := by
    cases q with
    | nil => exact absurd rfl hq
    | cons _ _ => simp
  have hlen := congrArg List.length hsplit
  simp only [List.length_append] at hlen
  have hd : a.length - (q.length - 1) ≤ s.length := by omega
  rw [rtake_append_drop_eq, hsplit, List.append_assoc,
    List.drop_append_of_le_length hd]
  exact substringOf_append_right q _ _ (substringOf_self_append q t)

/-- Core induction: running the detector over the chunks with the tail
buffer initialised to the last `|q|-1` bytes of the already-seen stream
`a` reports `true` at every chunk in which an occurrence of `q`
completes. -/
lemma detect_stream_run_sound (q : List Nat) (hq : q ≠ []) :
    ∀ (chunks : List (List Nat)) (a : List Nat) (k : Nat) (hk : k < chunks.length)
      (s t : List Nat),
      a ++ (chunks.take (k + 1)).flatten = (s ++ q) ++ t →
      t.length < (chunks.get ⟨k, hk⟩).length →
      (detect_stream_run q (a.rtake (q.length - 1)) chunks).get? k = some true := by
  intro chunks
  induction chunks with
  | nil => intro a k hk; exact absurd hk (by simp)
  | cons c cs ih =>
    intro a k hk s t hsplit hend
    cases k with
    | zero =>
      have hsplit' : a ++ c = (s ++ q) ++ t := by simpa using hsplit
      have hend' : t.length < c.length := by simpa using hend
      simp only [detect_stream_run, List.get?]
      rw [detect_query_fst,
        substring_in_rtake_of_split q hq a c s t hsplit' hend']
    | succ k' =>
      simp only [detect_stream_run, List.get?]
      rw [detect_query_snd, rtake_append_rtake]
      refine ih (a ++ c) k' (by simpa using hk) s t ?_ ?_
      · simpa [List.append_assoc] using hsplit
      · simpa using hend


-- ──────────────────────────────────────────────────────────────────────
-- strip_error_tags: supporting lemmas
-- ──────────────────────────────────────────────────────────────────────

lemma replaceMatchesF_of_not_sub (p : Char) (ps : Str) :
    ∀ (fuel : Nat) (s : Str), s.length ≤ fuel →
      substringOf (p :: ps) s = false → replaceMatchesF p ps fuel s = s := by
  intro fuel
  induction fuel with
  | zero =>
    intro s hs _
    cases s with
    | nil => rfl
    | cons c cs => simp at hs
  | succ n ih =>
    intro s hs hsub
    cases s with
    | nil => rfl
    | cons c cs =>
      have hor : ((p :: ps).isPrefixOf (c :: cs) || substringOf (p :: ps) cs) = false := hsub
      have h1 : (p :: ps).isPrefixOf (c :: cs) = false := by
        cases hpre : (p :: ps).isPrefixOf (c :: cs) with
        | false => rfl
        | true => rw [hpre] at hor; simp at hor
      have h2 : substringOf (p :: ps) cs = false := by
        rw [h1] at hor; simpa using hor
      simp only [replaceMatchesF, h1, Bool.false_eq_true, if_false]
      rw [ih cs (by simp at hs; omega) h2]

lemma replaceWithEmpty_of_not_sub (s pat : Str) (h : substringOf pat s = false) :
    replaceWithEmpty s pat = s := by
  cases pat with
  | nil => rfl
  | cons p ps => exact replaceMatchesF_of_not_sub p ps s.length s le_rfl h

-- ──────────────────────────────────────────────────────────────────────
-- Claim theorems: C7, C8, C9, C10
-- ──────────────────────────────────────────────────────────────────────

/-- C7: for each provider's dialog detector and every input text, the
returned DialogKind is the first kind in that provider's fixed priority
list whose phrases match (Claude: UpdatePrompt, AuthRequired,
FirstRunSetup; Codex: UpdatePrompt requiring both "update available" and
"codex", TermsAcceptance, TrustFolder, SandboxTrust, AuthRequired;
Gemini: TrustFolder, FirstRunSetup, UpdatePrompt excluded when
"extension" is present, TermsAcceptance, AuthRequired), so the result on
an input matching multiple kinds is deterministic. -/
theorem C7_dialog_detector_priority : ∀ content : Str,
    detect_claude_dialog content = firstMatchingDialog claudeDialogPriority content
    ∧ detect_codex_dialog content = firstMatchingDialog codexDialogPriority content
    ∧ detect_gemini_dialog content = firstMatchingDialog geminiDialogPriority content :=
  fun _ => ⟨rfl, rfl, rfl⟩

/-- C8: for every byte stream and every partition of it into chunks,
feeding the chunks in order to detect_query_in_stream (starting from an
empty tail) returns true on the chunk in which an occurrence of the query
completes. -/
theorem C8_detect_query_split_chunks (query : List Nat) (hq : query ≠ [])
    (chunks : List (List Nat)) (k : Nat) (hk : k < chunks.length) (s t : List Nat)
    (hsplit : (chunks.take (k + 1)).flatten = (s ++ query) ++ t)
    (hend : t.length < (chunks.get ⟨k, hk⟩).length) :
    (detect_stream_run query [] chunks).get? k = some true := by
  have h := detect_stream_run_sound query hq chunks [] k hk s t (by simpa using hsplit) hend
  simpa [List.rtake] using h

/-- C8 witness: the query [1,2,3] split across the two chunks [1,2] and
[3] is detected on the second chunk. -/
theorem C8_detect_query_split_chunks_witness :
    (detect_stream_run [1, 2, 3] [] [[1, 2], [3]]).get? 1 = some true :=
  C8_detect_query_split_chunks [1, 2, 3] (by decide) [[1, 2], [3]] 1 (by decide)
    [] [] (by decide) (by decide)

/-- C9 counterexample: strip_error_tags is not idempotent.  Removing the
tag "[timeout] " from the middle of "[timeo[timeout] ut] " splices the
surrounding text into a fresh "[timeout] " occurrence, which a second
application removes. -/
theorem C9_strip_error_tags_not_idempotent :
    strip_error_tags (strip_error_tags "[timeo[timeout] ut] ".data)
      ≠ strip_error_tags "[timeo[timeout] ut] ".data := by decide

/-- C9 (amended): strip_error_tags leaves any string containing none of
the three error tags unchanged (idempotence fails in general, per the
counterexample). -/
theorem C9_strip_error_tags_untagged : ∀ s : Str,
    substringOf "[tool-missing] ".data s = false →
    substringOf "[timeout] ".data s = false →
    substringOf "[parse-failure] ".data s = false →
    strip_error_tags s = s := by
  intro s h1 h2 h3
  unfold strip_error_tags
  rw [replaceWithEmpty_of_not_sub s _ h1, replaceWithEmpty_of_not_sub s _ h2,
    replaceWithEmpty_of_not_sub s _ h3]

/-- C9 witness: a plain untagged message is left unchanged. -/
theorem C9_strip_error_tags_untagged_witness :
    strip_error_tags "plain error".data = "plain error".data :=
  C9_strip_error_tags_untagged "plain error".data (by decide) (by decide) (by decide)

/-- C10: pick_richer returns its first argument exactly when the first
argument has at least as many entries as the second, and returns the
second argument otherwise (ties favor the first argument). -/
theorem C10_pick_richer_order : ∀ a b : UsageData,
    (pick_richer a b = a ↔ b.entries.length ≤ a.entries.length)
    ∧ (a.entries.length < b.entries.length → pick_richer a b = b) := by
  intro a b
  unfold pick_richer
  by_cases h : a.entries.length ≥ b.entries.length
  · rw [if_pos h]
    exact ⟨⟨fun _ => h, fun _ => rfl⟩, fun hlt => absurd hlt (by omega)⟩
  · rw [if_neg h]
    refine ⟨⟨fun hba => ?_, fun hba => absurd hba h⟩, fun _ => rfl⟩
    have : b.entries.length = a.entries.length := by rw [hba]
    omega

/-- C10 witness: evaluated at concrete data with one entry against none,
the second argument wins; the iff holds there as well. -/
theorem C10_pick_richer_order_witness :
    (pick_richer (UsageData.mk "codex".data [])
        (UsageData.mk "codex".data
          [UsageEntry.mk "5h limit".data 3 97 PercentKind.Left "resets 11:07".data
            none none none])
      = UsageData.mk "codex".data
          [UsageEntry.mk "5h limit".data 3 97 PercentKind.Left "resets 11:07".data
            none none none]) :=
  (C10_pick_richer_order (UsageData.mk "codex".data [])
    (UsageData.mk "codex".data
      [UsageEntry.mk "5h limit".data 3 97 PercentKind.Left "resets 11:07".data
        none none none])).2 (by decide)


-- ──────────────────────────────────────────────────────────────────────
-- Numbers: digit strings, i64 / u32 parses, saturating and wrapping casts
-- ──────────────────────────────────────────────────────────────────────

/-- Value of a digit string (most significant digit first). -/
def parseNat (ds : Str) : Nat := ds.foldl (fun n c => n * 10 + (c.toNat - 48)) 0

def i64Max : Int := 2 ^ 63 - 1

/-- `str::parse::<i64>()` on an all-digits capture: fails on the empty
string and on overflow past `i64::MAX`. -/
def parseI64 (ds : Str) : Option Int :=
  if ds.isEmpty then none
  else if (parseNat ds : Int) ≤ i64Max then some ((parseNat ds : Nat) : Int) else none

/-- `str::parse::<u32>()` on an all-digits capture. -/
def parseU32 (ds : Str) : Option Nat :=
  if ds.isEmpty then none
  else if parseNat ds ≤ 2 ^ 32 - 1 then some (parseNat ds) else none

/-- Two's-complement wrap into `i64`, the release-profile behaviour of an
overflowing Rust `i64` operation. -/
def wrap64 (x : Int) : Int := (x + 2 ^ 63) % 2 ^ 64 - 2 ^ 63

/-- `pct.round()` for the exact decimal `ip.fp` (round half away from
zero; the parsed value is non-negative). -/
def roundHalfUp (ip fp : Str) : Nat :=
  parseNat ip + (if 10 ^ fp.length ≤ 2 * parseNat fp then 1 else 0)

/-- `(pct.round() as u32).min(100)`: saturating `u32` cast, then clamp. -/
def clampPct (p : Str × Str) : Nat :=
  min (min (roundHalfUp p.1 p.2) (2 ^ 32 - 1)) 100

-- ──────────────────────────────────────────────────────────────────────
-- Scanner combinators (leftmost-first regex search)
-- ──────────────────────────────────────────────────────────────────────

/-- Leftmost match: try `f` at every start position, left to right — the
search behaviour of `Regex::captures`. -/
def scanFirst {α : Type} (f : Str → Option α) : Str → Option α
  | [] => f []
  | c :: cs =>
    match f (c :: cs) with
    | some r => some r
    | none => scanFirst f cs

/-- `Regex::captures_iter`: repeatedly take the leftmost match and
continue after its end (non-overlapping).  All patterns used here consume
at least one character, so fuel `|s| + 1` suffices. -/
def scanAllF {α : Type} (f : Str → Option (α × Str)) : Nat → Str → List α
  | 0, _ => []
  | fuel + 1, s =>
    match scanFirst f s with
    | none => []
    | some (a, rest) => a :: scanAllF f fuel rest

/-- Case-insensitive literal-prefix match (the literal is given in
lowercase); returns the remainder. -/
def ciPrefixDrop (lit : Str) (s : Str) : Option Str :=
  if toLower (s.take lit.length) = lit then some (s.drop lit.length) else none

/-- `(?i)Resets?` and `(?i)resets?` — try the greedy variant with the
trailing `s` first, then without, each with the full continuation (the
regex backtracks through the optional `s?`). -/
def resetsCI {α : Type} (s : Str) (k : Str → Option α) : Option α :=
  match (ciPrefixDrop "resets".data s).bind k with
  | some v => some v
  | none => (ciPrefixDrop "reset".data s).bind k

/-- Greedy `(\d{1,2})` with backtracking: try the two-digit prefix first,
then one digit, each with the full continuation `k digits rest`. -/
def digits2or1 {α : Type} (k : Str → Str → Option α) : Str → Option α
  | [] => none
  | a :: rest =>
    if a.isDigit then
      match rest with
      | b :: rest2 =>
        if b.isDigit then
          match k [a, b] rest2 with
          | some v => some v
          | none => k [a] rest
        else k [a] rest
      | [] => k [a] []
    else none

/-- Lazy `.*?` up to a one-character delimiter: the consumed part is
everything before the first occurrence of the delimiter (`.` does not
match a newline).  Returns (consumed, rest-after-delimiter). -/
def takeUntil (delim : Char) : Str → Option (Str × Str)
  | [] => none
  | c :: cs =>
    if c = delim then some ([], cs)
    else if c = '\n' then none
    else (takeUntil delim cs).map (fun p => (c :: p.1, p.2))

/-- Lazy `(.+?)` before a one-character delimiter: at least one character
is consumed by `.` (so a leading delimiter is swallowed), then everything
up to the next delimiter. -/
def lazyPlusUntil (delim : Char) : Str → Option (Str × Str)
  | [] => none
  | c :: cs =>
    if c = '\n' then none
    else (takeUntil delim cs).map (fun p => (c :: p.1, p.2))

/-- Regex `\w` (ASCII approximation of the Unicode word class; the
program's inputs are ASCII at the positions this class is used). -/
def isWordChar (c : Char) : Bool := c.isAlphanum || c = '_'

-- ──────────────────────────────────────────────────────────────────────
-- Calendar (chrono NaiveDate/NaiveTime/DateTime, fixed-offset zones)
-- ──────────────────────────────────────────────────────────────────────

/-- Gregorian month lengths. -/
def daysInMonth (y : Int) (m : Nat) : Nat :=
  if m = 2 then (if y % 4 = 0 && (y % 100 ≠ 0 || y % 400 = 0) then 29 else 28)
  else if m = 4 || m = 6 || m = 9 || m = 11 then 30 else 31

/-- Days since 1970-01-01 of a civil date (Howard Hinnant's
`days_from_civil`; chrono's `NaiveDate` ordering and day arithmetic agree
with this day count). -/
def daysFromCivil (y : Int) (m d : Nat) : Int :=
  let y' := if m ≤ 2 then y - 1 else y
  let era := Int.fdiv y' 400
  let yoe := y' - era * 400
  let mp : Int := if 2 < m then (m : Int) - 3 else (m : Int) + 9
  let doy := Int.ediv (153 * mp + 2) 5 + (d : Int) - 1
  let doe := yoe * 365 + Int.ediv yoe 4 - Int.ediv yoe 100 + doy
  era * 146097 + doe - 719468

/-- Year of a day count (Hinnant's `civil_from_days`, year component). -/
def yearOfDay (days : Int) : Int :=
  let z := days + 719468
  let era := Int.fdiv z 146097
  let doe := z - era * 146097
  let yoe := Int.ediv (doe - Int.ediv doe 1460 + Int.ediv doe 36524 - Int.ediv doe 146096) 365
  let y := yoe + era * 400
  let doy := doe - (365 * yoe + Int.ediv yoe 4 - Int.ediv yoe 100)
  let mp := Int.ediv (5 * doy + 2) 153
  let m := if mp < 10 then mp + 3 else mp - 9
  if m ≤ 2 then y + 1 else y

/-- chrono's representable year range (approximate bounds; the claims here
never depend on dates near the limits). -/
def MIN_YEAR : Int := -262144

def MAX_YEAR : Int := 262142

/-- `NaiveDate::from_ymd_opt`: a valid civil date becomes its day count. -/
def from_ymd_opt (y : Int) (m d : Nat) : Option Int :=
  if 1 ≤ m ∧ m ≤ 12 ∧ 1 ≤ d ∧ d ≤ daysInMonth y m ∧ MIN_YEAR ≤ y ∧ y ≤ MAX_YEAR then
    some (daysFromCivil y m d)
  else none

/-- `NaiveDate::succ_opt`: the next day, failing at the top of the range. -/
def succ_opt (d : Int) : Option Int :=
  if d + 1 ≤ daysFromCivil MAX_YEAR 12 31 then some (d + 1) else none

/-- `NaiveTime::from_hms_opt` as seconds into the day. -/
def from_hms_opt (h m sec : Nat) : Option Nat :=
  if h ≤ 23 ∧ m ≤ 59 ∧ sec ≤ 59 then some (h * 3600 + m * 60 + sec) else none

/-- `naive.and_local_timezone(tz).single()` for a fixed-offset zone
(offset in seconds east of UTC): always a unique instant. -/
def localToUtc (off naive : Int) : Option Int := some (naive - off)

/-- `DateTime::date_naive` of a timestamp shifted into a zone: floor
division by 86400 on the zone-local naive seconds. -/
def dayOfNaive (naive : Int) : Int := Int.fdiv naive 86400

/-- `Duration::num_minutes` of a whole-second duration: division
truncating toward zero. -/
def num_minutes (secs : Int) : Int := Int.tdiv secs 60

/-- `str::parse::<chrono_tz::Tz>`: finite table standing in for the IANA
database, each zone as a fixed UTC offset in seconds (the standard-time
offsets; DST is outside this model). -/
def tzOffset (name : Str) : Option Int :=
  if name = "America/Chicago".data then some (-21600)
  else if name = "UTC".data then some 0
  else if name = "US/Eastern".data then some (-18000)
  else none


-- ──────────────────────────────────────────────────────────────────────
-- parse_12h_time and parse_month (src/parser.rs)
-- ──────────────────────────────────────────────────────────────────────

/-- `\s*(am|pm)` (ci), returning whether the match is "pm". -/
def ampmFlag (r : Str) : Option Bool :=
  let r2 := r.dropWhile isSpc
  if toLower (r2.take 2) = "am".data then some false
  else if toLower (r2.take 2) = "pm".data then some true
  else none

/-- Continuation of `(?i)(\d{1,2})(?::(\d{2}))?\s*(am|pm)` after the hour
digits: the optional minutes group (greedy, exactly `:` + two digits),
then `\s*(am|pm)`.  Skipping the minutes group after it matched cannot
succeed (the remainder would then start with `:`), so each branch is
final. -/
def after12hDigits (hds : Str) (r : Str) : Option (Nat × Nat × Bool) :=
  let withColon : Option (Nat × Nat × Bool) :=
    match r with
    | ':' :: a :: b :: r3 =>
      if a.isDigit && b.isDigit then
        (ampmFlag r3).map (fun pm => (parseNat hds, parseNat [a, b], pm))
      else none
    | _ => none
  match withColon with
  | some v => some v
  | none => (ampmFlag r).map (fun pm => (parseNat hds, 0, pm))

/-- One position of `(?i)(\d{1,2})(?::(\d{2}))?\s*(am|pm)`. -/
def match12hAt (s : Str) : Option (Nat × Nat × Bool) :=
  digits2or1 (fun hds rest => after12hDigits hds rest) s

/-- `parse_12h_time` from src/parser.rs: find the pattern, apply the
am/pm adjustment, reject out-of-range values. -/
def parse_12h_time (s : Str) : Option (Nat × Nat) :=
  match scanFirst match12hAt s with
  | none => none
  | some (h, m, pm) =>
    let hour := if pm ∧ h ≠ 12 then h + 12 else if ¬ pm ∧ h = 12 then 0 else h
    if 23 < hour ∨ 59 < m then none else some (hour, m)

/-- `parse_month` from src/parser.rs. -/
def parse_month (s : Str) : Option Nat :=
  let l := toLower s
  if l = "jan".data ∨ l = "january".data then some 1
  else if l = "feb".data ∨ l = "february".data then some 2
  else if l = "mar".data ∨ l = "march".data then some 3
  else if l = "apr".data ∨ l = "april".data then some 4
  else if l = "may".data then some 5
  else if l = "jun".data ∨ l = "june".data then some 6
  else if l = "jul".data ∨ l = "july".data then some 7
  else if l = "aug".data ∨ l = "august".data then some 8
  else if l = "sep".data ∨ l = "september".data then some 9
  else if l = "oct".data ∨ l = "october".data then some 10
  else if l = "nov".data ∨ l = "november".data then some 11
  else if l = "dec".data ∨ l = "december".data then some 12
  else none

-- ──────────────────────────────────────────────────────────────────────
-- parse_gemini_reset (src/parser.rs)
-- ──────────────────────────────────────────────────────────────────────

/-- One position of `(\d+)h\s*(\d+)m`.  All quantified pieces are
character classes whose maximal run is the only viable candidate (a
shorter digit run leaves a digit where `h`/`m` is required; a shorter
space run leaves a space where a digit is required). -/
def matchHMAt (s : Str) : Option (Str × Str) :=
  let ds := s.takeWhile Char.isDigit
  if ds.isEmpty then none
  else
    match s.drop ds.length with
    | 'h' :: r2 =>
      let r3 := r2.dropWhile isSpc
      let ms := r3.takeWhile Char.isDigit
      if ms.isEmpty then none
      else
        match r3.drop ms.length with
        | 'm' :: _ => some (ds, ms)
        | _ => none
    | _ => none

/-- One position of `(\d+)h`. -/
def matchHAt (s : Str) : Option Str :=
  let ds := s.takeWhile Char.isDigit
  if ds.isEmpty then none
  else
    match s.drop ds.length with
    | 'h' :: _ => some ds
    | _ => none

/-- One position of `(\d+)m`. -/
def matchMAt (s : Str) : Option Str :=
  let ds := s.takeWhile Char.isDigit
  if ds.isEmpty then none
  else
    match s.drop ds.length with
    | 'm' :: _ => some ds
    | _ => none

/-- `parse_gemini_reset` from src/parser.rs.  A matched pattern commits:
a failing `i64` parse inside a branch aborts the whole function (`?` in
the Rust), it does not fall through to the next pattern.  The
multiplication and addition wrap as release-profile `i64` arithmetic. -/
def parse_gemini_reset (reset_info : Str) : Option Int :=
  match scanFirst matchHMAt reset_info with
  | some (hds, mds) =>
    (parseI64 hds).bind fun hours =>
    (parseI64 mds).bind fun minutes =>
    some (wrap64 (wrap64 (hours * 60) + minutes))
  | none =>
    match scanFirst matchHAt reset_info with
    | some hds =>
      (parseI64 hds).bind fun hours => some (wrap64 (hours * 60))
    | none =>
      match scanFirst matchMAt reset_info with
      | some mds => parseI64 mds
      | none => none

-- ──────────────────────────────────────────────────────────────────────
-- parse_codex_reset (src/parser.rs)
-- ──────────────────────────────────────────────────────────────────────

/-- One position of
`(?i)resets?\s+(\d{1,2}):(\d{2})\s+on\s+(\d{1,2})\s+(\w+)`:
(hour digits, minute digits, day digits, month word). -/
def matchCodexDateAt (s : Str) : Option (Str × Str × Str × Str) :=
  resetsCI s (fun r0 =>
    let sp1 := r0.takeWhile isSpc
    if sp1.isEmpty then none
    else
      digits2or1 (fun hds r1 =>
        match r1 with
        | ':' :: a :: b :: r2 =>
          if a.isDigit && b.isDigit then
            let sp2 := r2.takeWhile isSpc
            if sp2.isEmpty then none
            else
              (ciPrefixDrop "on".data (r2.drop sp2.length)).bind (fun r3 =>
                let sp3 := r3.takeWhile isSpc
                if sp3.isEmpty then none
                else
                  digits2or1 (fun dds r4 =>
                    let sp4 := r4.takeWhile isSpc
                    if sp4.isEmpty then none
                    else
                      let w := (r4.drop sp4.length).takeWhile isWordChar
                      if w.isEmpty then none else some (hds, [a, b], dds, w))
                    (r3.drop sp3.length))
          else none
        | _ => none) (r0.drop sp1.length))

/-- One position of `(?i)resets?\s+(\d{1,2}):(\d{2})`. -/
def matchCodexTimeAt (s : Str) : Option (Str × Str) :=
  resetsCI s (fun r0 =>
    let sp1 := r0.takeWhile isSpc
    if sp1.isEmpty then none
    else
      digits2or1 (fun hds r1 =>
        match r1 with
        | ':' :: a :: b :: _ =>
          if a.isDigit && b.isDigit then some (hds, [a, b]) else none
        | _ => none) (r0.drop sp1.length))

/-- `parse_codex_reset` from src/parser.rs.  `Local` is the fixed offset
`loff` (seconds east of UTC). -/
def parse_codex_reset (loff : Int) (reset_info : Str) (now_utc : Int) : Option Int :=
  match scanFirst matchCodexDateAt reset_info with
  | some (hds, mds, dds, monthW) =>
    (parseU32 hds).bind fun hour =>
    (parseU32 mds).bind fun mn =>
    (parseU32 dds).bind fun day =>
    (parse_month monthW).bind fun month =>
    let nowLocalDay := dayOfNaive (now_utc + loff)
    let year := yearOfDay nowLocalDay
    (from_ymd_opt year month day).bind fun rd0 =>
    (if rd0 < nowLocalDay then from_ymd_opt (year + 1) month day else some rd0).bind fun rd =>
    (from_hms_opt hour mn 0).bind fun t =>
    (localToUtc loff (rd * 86400 + (t : Int))).bind fun reset_utc =>
    let minutes := num_minutes (reset_utc - now_utc)
    if minutes < 0 then none else some minutes
  | none =>
    match scanFirst matchCodexTimeAt reset_info with
    | some (hds, mds) =>
      (parseU32 hds).bind fun hour =>
      (parseU32 mds).bind fun mn =>
      let today := dayOfNaive (now_utc + loff)
      (from_hms_opt hour mn 0).bind fun t =>
      (localToUtc loff (today * 86400 + (t : Int))).bind fun r1 =>
      if r1 ≤ now_utc then
        (succ_opt today).bind fun tomorrow =>
        (localToUtc loff (tomorrow * 86400 + (t : Int))).bind fun r2 =>
        some (num_minutes (r2 - now_utc))
      else some (num_minutes (r1 - now_utc))
    | none => none

-- ──────────────────────────────────────────────────────────────────────
-- parse_claude_reset (src/parser.rs)
-- ──────────────────────────────────────────────────────────────────────

/-- One position of the timezone extractor `\(([^)]+)\)`: a parenthesis
with at least one non-`)` character before the closing parenthesis. -/
def matchTzAt (s : Str) : Option Str :=
  match s with
  | '(' :: r =>
    let inner := r.takeWhile (fun c => c ≠ ')')
    if inner.isEmpty then none
    else
      match r.drop inner.length with
      | ')' :: _ => some inner
      | _ => none
  | _ => none

/-- Timezone offset from the first parenthesised group of the phrase. -/
def extractTz (s : Str) : Option Int := (scanFirst matchTzAt s).bind tzOffset

/-- `\s*\(`: greedy spaces, then a literal parenthesis. -/
def testSpLparen (r : Str) : Option Str :=
  match r.dropWhile isSpc with
  | '(' :: r2 => some r2
  | _ => none

/-- Lazy `(.+?)\s*\(`: the shortest non-empty newline-free run after
which `\s*\(` matches. -/
def lazyUntilSpLparen : Str → Option (Str × Str)
  | [] => none
  | c :: rest =>
    if c = '\n' then none
    else
      match testSpLparen rest with
      | some r2 => some ([c], r2)
      | none => (lazyUntilSpLparen rest).map (fun p => (c :: p.1, p.2))

/-- One position of
`(?i)Resets?\s*([A-Za-z]+)\s*(\d{1,2})\s*at\s*(.+?)\s*\(`:
(month word, day digits, time capture). -/
def matchClaudeDateTimeAt (s : Str) : Option (Str × Str × Str) :=
  resetsCI s (fun r0 =>
    let r1 := r0.dropWhile isSpc
    let letters := r1.takeWhile Char.isAlpha
    if letters.isEmpty then none
    else
      digits2or1 (fun dds r2 =>
        (ciPrefixDrop "at".data ((r2.dropWhile isSpc))).bind (fun r3 =>
          (lazyUntilSpLparen (r3.dropWhile isSpc)).map (fun p => (letters, dds, p.1))))
        ((r1.drop letters.length).dropWhile isSpc))


/-- `(?::\d{2})?\s*(?:am|pm)` as captured text for the claude time-only
pattern: returns (consumed text, rest). -/
def ampmText (r : Str) : Option (Str × Str) :=
  let sp := r.takeWhile isSpc
  let r2 := r.drop sp.length
  if toLower (r2.take 2) = "am".data || toLower (r2.take 2) = "pm".data then
    some (sp ++ r2.take 2, r2.drop 2)
  else none

/-- One position of
`(?i)Resets?\s*(\d{1,2}(?::\d{2})?\s*(?:am|pm))\s*\(`: the captured time
group.  The whole of `\s*\(` sits inside each quantifier branch, so the
backtracking order (two digits before one, minutes group before none) is
preserved. -/
def matchClaudeTimeAt (s : Str) : Option Str :=
  resetsCI s (fun r0 =>
    digits2or1 (fun hds r2 =>
      let tryRest : Str → Str → Option Str := fun cap r3 =>
        match testSpLparen r3 with
        | some _ => some cap
        | none => none
      let withColon : Option Str :=
        match r2 with
        | ':' :: a :: b :: r3 =>
          if a.isDigit && b.isDigit then
            (ampmText r3).bind (fun p => tryRest (hds ++ ':' :: a :: b :: p.1) p.2)
          else none
        | _ => none
      match withColon with
      | some v => some v
      | none => (ampmText r2).bind (fun p => tryRest (hds ++ p.1) p.2))
      (r0.dropWhile isSpc))

/-- One position of `(?i)Resets?\s*([A-Za-z]+)\s*(\d{1,2})\s*\(`:
(month word, day digits). -/
def matchClaudeDateAt (s : Str) : Option (Str × Str) :=
  resetsCI s (fun r0 =>
    let r1 := r0.dropWhile isSpc
    let letters := r1.takeWhile Char.isAlpha
    if letters.isEmpty then none
    else
      digits2or1 (fun dds r2 =>
        match testSpLparen r2 with
        | some _ => some (letters, dds)
        | none => none)
        ((r1.drop letters.length).dropWhile isSpc))

/-- `parse_claude_reset` from src/parser.rs.  The timezone comes from the
phrase itself; absent or unknown timezones abort immediately (the `?` on
the `Tz` parse). -/
def parse_claude_reset (reset_info : Str) (now_utc : Int) : Option Int :=
  (extractTz reset_info).bind (fun off =>
    let today := dayOfNaive (now_utc + off)
    match scanFirst matchClaudeDateTimeAt reset_info with
    | some (monthW, dds, timeCap) =>
      (parse_month monthW).bind fun month =>
      (parseU32 dds).bind fun day =>
      (parse_12h_time timeCap).bind fun hm =>
      let year := yearOfDay today
      (from_ymd_opt year month day).bind fun rd0 =>
      (if rd0 < today then from_ymd_opt (year + 1) month day else some rd0).bind fun rd =>
      (from_hms_opt hm.1 hm.2 0).bind fun t =>
      (localToUtc off (rd * 86400 + (t : Int))).bind fun reset_utc =>
      let minutes := num_minutes (reset_utc - now_utc)
      if minutes < 0 then none else some minutes
    | none =>
      match scanFirst matchClaudeTimeAt reset_info with
      | some timeCap =>
        (parse_12h_time timeCap).bind fun hm =>
        (from_hms_opt hm.1 hm.2 0).bind fun t =>
        (localToUtc off (today * 86400 + (t : Int))).bind fun r1 =>
        if r1 ≤ now_utc then
          (succ_opt today).bind fun tomorrow =>
          (localToUtc off (tomorrow * 86400 + (t : Int))).bind fun r2 =>
          some (num_minutes (r2 - now_utc))
        else some (num_minutes (r1 - now_utc))
      | none =>
        match scanFirst matchClaudeDateAt reset_info with
        | some (monthW, dds) =>
          (parse_month monthW).bind fun month =>
          (parseU32 dds).bind fun day =>
          let year := yearOfDay today
          (from_ymd_opt year month day).bind fun rd0 =>
          (if rd0 < today then from_ymd_opt (year + 1) month day else some rd0).bind fun rd =>
          (from_hms_opt 0 0 0).bind fun t =>
          (localToUtc off (rd * 86400 + (t : Int))).bind fun reset_utc =>
          let minutes := num_minutes (reset_utc - now_utc)
          if minutes < 0 then none else some minutes
        | none => none)

/-- `parse_reset_minutes_at` from src/parser.rs, with the ambient `Local`
zone made explicit as the fixed offset `loff`. -/
def parse_reset_minutes_at (loff : Int) (reset_info provider : Str) (now_utc : Int) :
    Option Int :=
  if reset_info.isEmpty then none
  else if provider = "gemini".data then parse_gemini_reset reset_info
  else if provider = "codex".data then parse_codex_reset loff reset_info now_utc
  else if provider = "claude".data then parse_claude_reset reset_info now_utc
  else none


-- ──────────────────────────────────────────────────────────────────────
-- str::lines
-- ──────────────────────────────────────────────────────────────────────

def splitLinesAux (acc : Str) : Str → List Str
  | [] => [acc.reverse]
  | c :: rest =>
    if c = '\n' then acc.reverse :: splitLinesAux [] rest
    else splitLinesAux (c :: acc) rest

/-- Drop one trailing carriage return (`str::lines` strips `\r\n`). -/
def stripCR (l : Str) : Str :=
  if l.getLast? = some '\r' then l.dropLast else l

/-- Rust `str::lines`: split on `\n`, no trailing empty line for a final
newline, each line stripped of a trailing `\r`. -/
def splitLines (text : Str) : List Str :=
  match text with
  | [] => []
  | _ =>
    let parts := splitLinesAux [] text
    (if text.getLast? = some '\n' then parts.dropLast else parts).map stripCR

-- ──────────────────────────────────────────────────────────────────────
-- Claude line matchers (src/parser.rs, parse_claude_output)
-- ──────────────────────────────────────────────────────────────────────

/-- One position of `(\d+(?:\.\d+)?)\s*%\s*used`: the percentage as
(integer digits, fraction digits), plus the remainder after the match
(for `captures_iter`).  The optional fraction commits when a dot is
followed by a digit: if the continuation then fails, the skip-branch
would place `%` against that dot and fail as well. -/
def matchPctAt (s : Str) : Option ((Str × Str) × Str) :=
  let ip := s.takeWhile Char.isDigit
  if ip.isEmpty then none
  else
    let r1 := s.drop ip.length
    let fpr : Str × Str :=
      match r1 with
      | '.' :: r2 =>
        let fp := r2.takeWhile Char.isDigit
        if fp.isEmpty then ([], r1) else (fp, r2.drop fp.length)
      | _ => ([], r1)
    match fpr.2.dropWhile isSpc with
    | '%' :: r4 =>
      let r5 := r4.dropWhile isSpc
      if "used".data.isPrefixOf r5 then some ((ip, fpr.1), r5.drop 4) else none
    | _ => none

def isMoneyChar (c : Char) : Bool := c.isDigit || c = '.' || c = ','

/-- One position of the spend pattern
`(\$[\d.,]+\s*/\s*\$[\d.,]+\s*spent)`: the capture is the whole matched
text.  All quantified pieces are classes whose members never collide with
the following literal, so maximal munch is faithful. -/
def matchMoneyAt (s : Str) : Option (Str × Str) :=
  match s with
  | '$' :: r1 =>
    let d1 := r1.takeWhile isMoneyChar
    if d1.isEmpty then none
    else
      let r2 := r1.drop d1.length
      let sp1 := r2.takeWhile isSpc
      match r2.drop sp1.length with
      | '/' :: r3 =>
        let sp2 := r3.takeWhile isSpc
        match r3.drop sp2.length with
        | '$' :: r4 =>
          let d2 := r4.takeWhile isMoneyChar
          if d2.isEmpty then none
          else
            let r5 := r4.drop d2.length
            let sp3 := r5.takeWhile isSpc
            let r6 := r5.drop sp3.length
            if "spent".data.isPrefixOf r6 then
              some ('$' :: (d1 ++ sp1 ++ '/' :: (sp2 ++ '$' :: (d2 ++ sp3 ++ "spent".data))),
                r6.drop 5)
            else none
        | _ => none
      | _ => none
  | _ => none

/-- `\s*.+` after the reset keyword: greedy spaces, then at least one
non-newline character, greedily to the end of the non-newline run.  When
everything left is whitespace the regex backtracks the `\s*` until `.`
can take a non-newline whitespace character, i.e. it keeps everything up
to the last non-newline character. -/
def spacesDotPlus (r : Str) : Option Str :=
  let sp := r.takeWhile isSpc
  let rest := r.drop sp.length
  if rest.isEmpty then
    let kept := (r.reverse.dropWhile (fun c => c = '\n')).reverse
    if kept.isEmpty then none else some kept
  else some (sp ++ rest.takeWhile (fun c => c ≠ '\n'))

/-- One position of `((?:Resets?|Reses)\s*.+)` (case-sensitive): the
alternation order is Resets, Reset, Reses; the capture is the keyword
plus the consumed tail.  Returns (capture, rest after match). -/
def matchResetAt (s : Str) : Option (Str × Str) :=
  let tryLit : Str → Option (Str × Str) := fun lit =>
    if lit.isPrefixOf s then
      match spacesDotPlus (s.drop lit.length) with
      | some consumed => some (lit ++ consumed, (s.drop lit.length).drop consumed.length)
      | none => none
    else none
  match tryLit "Resets".data with
  | some v => some v
  | none =>
    match tryLit "Reset".data with
    | some v => some v
    | none => tryLit "Reses".data

/-- `normalize_reset_text` from src/parser.rs: trim, then map a leading
"Reses" (ASCII case-insensitive, first five characters) to "Resets". -/
def normalize_reset_text (raw : Str) : Str :=
  let trimmed := trimChars raw
  if toLower (trimmed.take 5) = "reses".data then "Resets".data ++ trimmed.drop 5
  else trimmed

def knownHeaders : List Str :=
  [ "Current session".data
  , "Current week (all models)".data
  , "Current week (Sonnet only)".data
  , "Extra usage".data
  ]

/-- Header recognition in parse_claude_output: the first known header the
trimmed line starts with (labelled by the known header), else any line
starting with "Current week" or "Current session" (labelled by the whole
trimmed line). -/
def headerOf (line : Str) : Option Str :=
  let trimmed := trimChars line
  match knownHeaders.find? (fun h => h.isPrefixOf trimmed) with
  | some h => some h
  | none =>
    if "Current week".data.isPrefixOf trimmed
        || "Current session".data.isPrefixOf trimmed then
      some trimmed
    else none

/-- The scan over the lines after a header: first percentage, first reset
phrase (normalised), first spend phrase, each tracked independently. -/
def scanWindow : List Str → Option (Str × Str) → Str → Option Str →
    Option (Str × Str) × Str × Option Str
  | [], pct, reset, spent => (pct, reset, spent)
  | l :: rest, pct, reset, spent =>
    let line := trimChars l
    let pct' :=
      match pct with
      | some v => some v
      | none => (scanFirst matchPctAt line).map Prod.fst
    let reset' :=
      if reset.isEmpty then
        match scanFirst matchResetAt line with
        | some (cap, _) => normalize_reset_text cap
        | none => reset
      else reset
    let spent' :=
      match spent with
      | some v => some v
      | none => (scanFirst matchMoneyAt line).map Prod.fst
    scanWindow rest pct' reset' spent'

/-- Entry constructor shared by the header pass of parse_claude_output. -/
def mkClaudeEntry (loff now : Int) (label : Str) (pct : Str × Str) (reset_info : Str)
    (spent : Option Str) : UsageEntry :=
  { label := label
  , percent_used := clampPct pct
  , percent_remaining := 100 - clampPct pct
  , percent_kind := PercentKind.Used
  , reset_info := reset_info
  , reset_minutes := parse_reset_minutes_at loff reset_info "claude".data now
  , spent := spent
  , requests := none }

/-- The per-header extraction of parse_claude_output: scan the window for
a percentage, reset phrase and spend phrase; an entry is produced exactly
when a percentage was found. -/
def claudeExtract (loff now : Int) (label : Str) (window : List Str) : Option UsageEntry :=
  match scanWindow window none [] none with
  | (some pct, reset, spent) => some (mkClaudeEntry loff now label pct reset spent)
  | (none, _, _) => none

/-- The header-anchored pass of parse_claude_output: at each line, if it
is a recognised header, scan the slice `lines[(i+1)..(i+5).min(len)]` —
the next four lines after the header — and emit an entry when a
percentage was found. -/
def claudeScan (loff now : Int) : List Str → List UsageEntry
  | [] => []
  | l :: rest =>
    (match headerOf l with
     | some label => (claudeExtract loff now label (rest.take 4)).toList
     | none => []) ++ claudeScan loff now rest

/-- The fallback pass of parse_claude_output: order all percentage
captures of the whole text as session/week/sonnet/extra, align resets by
position, attach the single spend match to the fourth entry. -/
def claudeFallback (loff now : Int) (text : Str) : List UsageEntry :=
  let percents := scanAllF matchPctAt (text.length + 1) text
  let resets := (scanAllF matchResetAt (text.length + 1) text).map normalize_reset_text
  let spent := (scanFirst matchMoneyAt text).map (fun v => trimChars v.fst)
  ((percents.take knownHeaders.length).enum).map (fun ip =>
    { label := knownHeaders.getD ip.1 []
    , percent_used := clampPct ip.2
    , percent_remaining := 100 - clampPct ip.2
    , percent_kind := PercentKind.Used
    , reset_info := (resets.get? ip.1).getD []
    , reset_minutes :=
        parse_reset_minutes_at loff ((resets.get? ip.1).getD []) "claude".data now
    , spent := if ip.1 = 3 then spent else none
    , requests := none })

/-- `parse_claude_output` from src/parser.rs (the `Utc::now()` inside
`parse_reset_minutes` and the ambient `Local` zone are explicit
parameters; the `Result` is always `Ok` since the only fallible step is
regex compilation). -/
def parse_claude_output (loff now : Int) (text : Str) : UsageData :=
  let entries := claudeScan loff now (splitLines text)
  { provider := "claude".data
  , entries := if entries.isEmpty then claudeFallback loff now text else entries }


-- ──────────────────────────────────────────────────────────────────────
-- Codex parser (src/parser.rs, parse_codex_output)
-- ──────────────────────────────────────────────────────────────────────

/-- Per-line normalisation in parse_codex_output / parse_gemini_output:
`raw.trim().trim_start_matches('│').trim_end_matches('│').trim()` — only
the box glyph `│` is stripped from the edges. -/
def stripPipes (s : Str) : Str :=
  ((s.dropWhile (fun c => c = '│')).reverse.dropWhile (fun c => c = '│')).reverse

def normalizeLine (raw : Str) : Str := trimChars (stripPipes (trimChars raw))

/-- Regex class `[\w\s.-]` of the codex label groups. -/
def isSectChar (c : Char) : Bool := isWordChar c || isSpc c || c = '.' || c = '-'

/-- Test for `\s*limit:\s*$` at the current point of the section
pattern. -/
def sectionEndCheck (r : Str) : Bool :=
  let sp := r.dropWhile isSpc
  "limit:".data.isPrefixOf sp && ((sp.drop 6).dropWhile isSpc).isEmpty

/-- Lazy tail of `([\w][\w\s.-]+?)\s*limit:\s*$`: at each step the
shortest group is tried first (check the terminator before extending). -/
def sectionTail (acc : Str) : Str → Option Str
  | [] => none
  | c :: rest =>
    if sectionEndCheck (c :: rest) then some acc.reverse
    else if isSectChar c then sectionTail (c :: acc) rest
    else none

/-- `^\s*([\w][\w\s.-]+?)\s*limit:\s*$` — the codex section header line
(a label, at least two characters, with no progress bar). -/
def codexSectionLine (line : Str) : Option Str :=
  match line.dropWhile isSpc with
  | c :: d :: rest =>
    if isWordChar c && isSectChar d then sectionTail [d, c] rest else none
  | _ => none

/-- Continuation of the codex limit pattern after `limit:` —
`\s+\[.*?\]\s+(\d+(?:\.\d+)?)\s*%\s*(left|used)\s+\(resets?\s+(.+?)\)`.
Returns (percent digits, kind, reset capture). -/
def limitCont (r : Str) : Option ((Str × Str) × PercentKind × Str) :=
  let sp1 := r.takeWhile isSpc
  if sp1.isEmpty then none
  else
    match r.drop sp1.length with
    | '[' :: r2 =>
      (takeUntil ']' r2).bind (fun bar =>
        let r3 := bar.2
        let sp2 := r3.takeWhile isSpc
        if sp2.isEmpty then none
        else
          let r4 := r3.drop sp2.length
          let ip := r4.takeWhile Char.isDigit
          if ip.isEmpty then none
          else
            let r5 := r4.drop ip.length
            let fpr : Str × Str :=
              match r5 with
              | '.' :: r6 =>
                let fp := r6.takeWhile Char.isDigit
                if fp.isEmpty then ([], r5) else (fp, r6.drop fp.length)
              | _ => ([], r5)
            match fpr.2.dropWhile isSpc with
            | '%' :: r7 =>
              let r8 := r7.dropWhile isSpc
              let kindParse : Option (PercentKind × Str) :=
                if "left".data.isPrefixOf r8 then some (PercentKind.Left, r8.drop 4)
                else if "used".data.isPrefixOf r8 then some (PercentKind.Used, r8.drop 4)
                else none
              kindParse.bind (fun kp =>
                let sp3 := kp.2.takeWhile isSpc
                if sp3.isEmpty then none
                else
                  match kp.2.drop sp3.length with
                  | '(' :: r9 =>
                    let afterReset : Str → Option ((Str × Str) × PercentKind × Str) :=
                      fun r10 =>
                        let sp4 := r10.takeWhile isSpc
                        if sp4.isEmpty then none
                        else
                          (lazyPlusUntil ')' (r10.drop sp4.length)).map
                            (fun cap => ((ip, fpr.1), kp.1, cap.1))
                    (match (if "resets".data.isPrefixOf r9 then
                              afterReset (r9.drop 6) else none) with
                     | some v => some v
                     | none =>
                       if "reset".data.isPrefixOf r9 then afterReset (r9.drop 5) else none)
                  | _ => none)
            | _ => none)
    | _ => none

/-- Test for `\s*limit:` plus the limit continuation at the current point
of the lazy label group. -/
def limitCheck (acc : Str) (r : Str) : Option (Str × (Str × Str) × PercentKind × Str) :=
  let sp := r.dropWhile isSpc
  if "limit:".data.isPrefixOf sp then
    (limitCont (sp.drop 6)).map (fun res => (acc.reverse, res))
  else none

/-- Lazy tail of `([\w][\w\s.-]*?)\s*limit:\s+\[...`: shortest label
first, extending only through the `[\w\s.-]` class. -/
def limitTail (acc : Str) : Str → Option (Str × (Str × Str) × PercentKind × Str)
  | [] => none
  | c :: rest =>
    match limitCheck acc (c :: rest) with
    | some res => some res
    | none => if isSectChar c then limitTail (c :: acc) rest else none

/-- `^\s*([\w][\w\s.-]*?)\s*limit:\s+\[.*?\]\s+(\d+(?:\.\d+)?)\s*%\s*`
`(left|used)\s+\(resets?\s+(.+?)\)` — the codex limit line.  Returns
(raw label, percent digits, kind, reset capture). -/
def codexLimitLine (line : Str) : Option (Str × (Str × Str) × PercentKind × Str) :=
  match line.dropWhile isSpc with
  | c :: rest => if isWordChar c then limitTail [c] rest else none
  | [] => none

/-- Decoration / key-value test of parse_codex_output: a non-limit,
non-section line resets the section context unless it starts with `[`,
`╭`, `╰`, `>` or contains `:`. -/
def codexKeepsSection (line : Str) : Bool :=
  (match line with
   | c :: _ => c = '[' || c = '╭' || c = '╰' || c = '>'
   | [] => false)
  || line.contains ':'

def mkCodexEntry (loff now : Int) (label : Str) (pct : Str × Str) (kind : PercentKind)
    (resetCap : Str) : UsageEntry :=
  { label := label
  , percent_used :=
      match kind with
      | PercentKind.Used => clampPct pct
      | PercentKind.Left => 100 - clampPct pct
  , percent_remaining :=
      match kind with
      | PercentKind.Used => 100 - clampPct pct
      | PercentKind.Left => clampPct pct
  , percent_kind := kind
  , reset_info := "resets ".data ++ resetCap
  , reset_minutes :=
      parse_reset_minutes_at loff ("resets ".data ++ resetCap) "codex".data now
  , spent := none
  , requests := none }

/-- The line loop of parse_codex_output, threading the section context. -/
def codexScan (loff now : Int) : List Str → Option Str → List UsageEntry
  | [], _ => []
  | raw :: rest, current_section =>
    let line := normalizeLine raw
    if line.isEmpty then codexScan loff now rest current_section
    else
      match codexSectionLine line with
      | some sect => codexScan loff now rest (some (trimChars sect))
      | none =>
        match codexLimitLine line with
        | some (rawLabel, pct, kind, resetCap) =>
          let label :=
            match current_section with
            | some sect => sect ++ ' ' :: (trimChars rawLabel ++ " limit".data)
            | none => trimChars rawLabel ++ " limit".data
          mkCodexEntry loff now label pct kind resetCap
            :: codexScan loff now rest current_section
        | none =>
          codexScan loff now rest
            (if codexKeepsSection line then current_section else none)

/-- `parse_codex_output` from src/parser.rs. -/
def parse_codex_output (loff now : Int) (text : Str) : UsageData :=
  { provider := "codex".data
  , entries := codexScan loff now (splitLines text) none }

-- ──────────────────────────────────────────────────────────────────────
-- Gemini parser (src/parser.rs, parse_gemini_output)
-- ──────────────────────────────────────────────────────────────────────


/-- Case-sensitive literal-prefix match returning the remainder. -/
def ciCaseSensPrefix (lit : Str) (s : Str) : Option Str :=
  if lit.isPrefixOf s then some (s.drop lit.length) else none

/-- Regex class `[\w.-]` of the gemini model-name group. -/
def isGemChar (c : Char) : Bool := isWordChar c || c = '.' || c = '-'

/-- `^\s*(gemini-[\w.-]+)\s+(\d+|-)\s+(\d+(?:\.\d+)?)\s*%\s*`
`\(Resets?\s+in\s+(.+?)\)` — a gemini model row.  Returns
(label, raw requests, percent digits, reset capture). -/
def geminiModelLine (line : Str) : Option (Str × Str × (Str × Str) × Str) :=
  let r := line.dropWhile isSpc
  if "gemini-".data.isPrefixOf r then
    let r1 := r.drop 7
    let nameTail := r1.takeWhile isGemChar
    if nameTail.isEmpty then none
    else
      let label := "gemini-".data ++ nameTail
      let r2 := r1.drop nameTail.length
      let sp1 := r2.takeWhile isSpc
      if sp1.isEmpty then none
      else
        let r3 := r2.drop sp1.length
        let reqParse : Option (Str × Str) :=
          let ds := r3.takeWhile Char.isDigit
          if ds.isEmpty then
            match r3 with
            | '-' :: r4 => some ("-".data, r4)
            | _ => none
          else some (ds, r3.drop ds.length)
        reqParse.bind (fun rq =>
          let sp2 := rq.2.takeWhile isSpc
          if sp2.isEmpty then none
          else
            let r5 := rq.2.drop sp2.length
            let ip := r5.takeWhile Char.isDigit
            if ip.isEmpty then none
            else
              let r6 := r5.drop ip.length
              let fpr : Str × Str :=
                match r6 with
                | '.' :: r7 =>
                  let fp := r7.takeWhile Char.isDigit
                  if fp.isEmpty then ([], r6) else (fp, r7.drop fp.length)
                | _ => ([], r6)
              match fpr.2.dropWhile isSpc with
              | '%' :: r8 =>
                match (r8.dropWhile isSpc) with
                | '(' :: r9 =>
                  let afterIn : Str → Option (Str × Str × (Str × Str) × Str) :=
                    fun r10 =>
                      let sp3 := r10.takeWhile isSpc
                      if sp3.isEmpty then none
                      else
                        (ciCaseSensPrefix "in".data (r10.drop sp3.length)).bind (fun r11 =>
                          let sp4 := r11.takeWhile isSpc
                          if sp4.isEmpty then none
                          else
                            (lazyPlusUntil ')' (r11.drop sp4.length)).map
                              (fun cap => (label, rq.1, (ip, fpr.1), cap.1)))
                  (match (if "Resets".data.isPrefixOf r9 then
                            afterIn (r9.drop 6) else none) with
                   | some v => some v
                   | none =>
                     if "Reset".data.isPrefixOf r9 then afterIn (r9.drop 5) else none)
                | _ => none
              | _ => none)
  else none

def mkGeminiEntry (loff now : Int) (label : Str) (requests : Option Str)
    (pct : Str × Str) (resetCap : Str) : UsageEntry :=
  { label := label
  , percent_used := 100 - clampPct pct
  , percent_remaining := clampPct pct
  , percent_kind := PercentKind.Left
  , reset_info := "Resets in ".data ++ resetCap
  , reset_minutes :=
      parse_reset_minutes_at loff ("Resets in ".data ++ resetCap) "gemini".data now
  , spent := none
  , requests := requests }

/-- The line loop of parse_gemini_output. -/
def geminiScan (loff now : Int) : List Str → List UsageEntry
  | [] => []
  | raw :: rest =>
    let line := normalizeLine raw
    (if line.isEmpty then []
     else
       match geminiModelLine line with
       | some (label, requestsRaw, pct, resetCap) =>
         [mkGeminiEntry loff now label
           (if requestsRaw = "-".data then none else some requestsRaw) pct resetCap]
       | none => []) ++ geminiScan loff now rest

/-- `parse_gemini_output` from src/parser.rs. -/
def parse_gemini_output (loff now : Int) (text : Str) : UsageData :=
  { provider := "gemini".data
  , entries := geminiScan loff now (splitLines text) }


-- ──────────────────────────────────────────────────────────────────────
-- C1: percentage invariant
-- ──────────────────────────────────────────────────────────────────────

/-- The per-entry percentage invariant of the spec. -/
def pctInvariant (e : UsageEntry) : Prop :=
  e.percent_used + e.percent_remaining = 100
  ∧ e.percent_used ≤ 100 ∧ e.percent_remaining ≤ 100

lemma clampPct_le (p : Str × Str) : clampPct p ≤ 100 := Nat.min_le_right _ _

lemma pctInvariant_mkClaudeEntry (loff now : Int) (label : Str) (pct : Str × Str)
    (reset : Str) (spent : Option Str) :
    pctInvariant (mkClaudeEntry loff now label pct reset spent) := by
  have h := clampPct_le pct
  simp only [mkClaudeEntry, pctInvariant]
  omega

lemma pctInvariant_mkCodexEntry (loff now : Int) (label : Str) (pct : Str × Str)
    (kind : PercentKind) (resetCap : Str) :
    pctInvariant (mkCodexEntry loff now label pct kind resetCap) := by
  have h := clampPct_le pct
  cases kind <;> (simp only [mkCodexEntry, pctInvariant]; omega)

lemma pctInvariant_mkGeminiEntry (loff now : Int) (label : Str) (requests : Option Str)
    (pct : Str × Str) (resetCap : Str) :
    pctInvariant (mkGeminiEntry loff now label requests pct resetCap) := by
  have h := clampPct_le pct
  simp only [mkGeminiEntry, pctInvariant]
  omega

lemma pctInvariant_claudeExtract (loff now : Int) (label : Str) (window : List Str)
    (e : UsageEntry) (h : claudeExtract loff now label window = some e) :
    pctInvariant e := by
  unfold claudeExtract at h
  rcases hw : scanWindow window none [] none with ⟨pcto, reset, spent⟩
  rcases pcto with _ | pct
  · rw [hw] at h; simp at h
  · rw [hw] at h
    simp only [Option.some.injEq] at h
    rw [← h]
    exact pctInvariant_mkClaudeEntry loff now label pct reset spent

lemma pctInvariant_claudeScan (loff now : Int) (ls : List Str) :
    ∀ e ∈ claudeScan loff now ls, pctInvariant e := by
  induction ls with
  | nil => intro e he; simp [claudeScan] at he
  | cons l rest ih =>
    intro e he
    rw [claudeScan] at he
    rcases List.mem_append.mp he with h | h
    · rcases hh : headerOf l with _ | label
      · rw [hh] at h; simp at h
      · rw [hh] at h
        rcases hx : claudeExtract loff now label (rest.take 4) with _ | e'
        · simp [hx] at h
        · simp [hx] at h
          rw [h]
          exact pctInvariant_claudeExtract loff now label (rest.take 4) e' hx
    · exact ih e h

lemma pctInvariant_claudeFallback (loff now : Int) (text : Str) :
    ∀ e ∈ claudeFallback loff now text, pctInvariant e := by
  intro e he
  simp only [claudeFallback] at he
  rcases List.mem_map.mp he with ⟨ip, _, hmk⟩
  have h := clampPct_le ip.2
  rw [← hmk]
  simp only [pctInvariant]
  omega

lemma pctInvariant_codexScan (loff now : Int) (ls : List Str) :
    ∀ sect, ∀ e ∈ codexScan loff now ls sect, pctInvariant e := by
  induction ls with
  | nil => intro sect e he; simp [codexScan] at he
  | cons raw rest ih =>
    intro sect e he
    rw [codexScan] at he
    by_cases hemp : (normalizeLine raw).isEmpty
    · rw [if_pos hemp] at he; exact ih sect e he
    · rw [if_neg hemp] at he
      rcases hsec : codexSectionLine (normalizeLine raw) with _ | sct
      · rw [hsec] at he
        rcases hlim : codexLimitLine (normalizeLine raw) with _ | res
        · rw [hlim] at he; exact ih _ e he
        · rw [hlim] at he
          rcases res with ⟨rawLabel, pct, kind, resetCap⟩
          simp only [List.mem_cons] at he
          rcases he with h | h
          · rw [h]; exact pctInvariant_mkCodexEntry loff now _ pct kind resetCap
          · exact ih sect e h
      · rw [hsec] at he; exact ih _ e he

lemma pctInvariant_geminiScan (loff now : Int) (ls : List Str) :
    ∀ e ∈ geminiScan loff now ls, pctInvariant e := by
  induction ls with
  | nil => intro e he; simp [geminiScan] at he
  | cons raw rest ih =>
    intro e he
    rw [geminiScan] at he
    rcases List.mem_append.mp he with h | h
    · by_cases hemp : (normalizeLine raw).isEmpty
      · rw [if_pos hemp] at h; simp at h
      · rw [if_neg hemp] at h
        rcases hm : geminiModelLine (normalizeLine raw) with _ | res
        · rw [hm] at h; simp at h
        · rw [hm] at h
          rcases res with ⟨label, requestsRaw, pct, resetCap⟩
          simp only [List.mem_singleton] at h
          rw [h]
          exact pctInvariant_mkGeminiEntry loff now label _ pct resetCap
    · exact ih e h

/-- C1: for every input text, every UsageEntry produced by
parse_claude_output, parse_codex_output, or parse_gemini_output satisfies
percent_used + percent_remaining = 100, with both fields in [0, 100]
(percent fields are Nat, so the lower bound is inherent). -/
theorem C1_percent_invariant (loff now : Int) (text : Str) :
    (∀ e ∈ (parse_claude_output loff now text).entries, pctInvariant e)
    ∧ (∀ e ∈ (parse_codex_output loff now text).entries, pctInvariant e)
    ∧ (∀ e ∈ (parse_gemini_output loff now text).entries, pctInvariant e) := by
  refine ⟨?_, ?_, ?_⟩
  · intro e he
    unfold parse_claude_output at he
    simp only [] at he
    by_cases h : (claudeScan loff now (splitLines text)).isEmpty
    · rw [if_pos h] at he
      exact pctInvariant_claudeFallback loff now text e he
    · rw [if_neg h] at he
      exact pctInvariant_claudeScan loff now (splitLines text) e he
  · intro e he
    exact pctInvariant_codexScan loff now (splitLines text) none e he
  · intro e he
    exact pctInvariant_geminiScan loff now (splitLines text) e he

/-- C1 witness: the invariant at a concrete parsed entry. -/
theorem C1_percent_invariant_witness :
    pctInvariant
      ((parse_gemini_output 0 0
        "gemini-2.5-pro   -   98.1% (Resets in 2h 35m)".data).entries.getD 0
        (UsageEntry.mk [] 0 100 PercentKind.Left [] none none none)) := by
  have h := (C1_percent_invariant 0 0
    "gemini-2.5-pro   -   98.1% (Resets in 2h 35m)".data).2.2
  exact h _ (by decide)


-- ──────────────────────────────────────────────────────────────────────
-- C5: Claude reset needs a parenthesised timezone; concrete 480 minutes
-- ──────────────────────────────────────────────────────────────────────

/-- C5: for the Claude provider, the reset-minutes computation returns
absent whenever no timezone can be extracted from parentheses in the
phrase; and at the reference time 2026-02-13T12:00:00Z the phrase
"Resets 2pm (America/Chicago)" yields exactly 480 minutes. -/
theorem C5_claude_reset_requires_tz :
    (∀ (phrase : Str) (now : Int), extractTz phrase = none →
        parse_claude_reset phrase now = none)
    ∧ parse_claude_reset "Resets 2pm (America/Chicago)".data
        (daysFromCivil 2026 2 13 * 86400 + 43200) = some 480 := by
  constructor
  · intro phrase now h
    unfold parse_claude_reset
    rw [h]
    rfl
  · decide

/-- C5 witness: a phrase with no parenthesised timezone is absent. -/
theorem C5_claude_reset_requires_tz_witness :
    parse_claude_reset "Resets 2pm".data 0 = none :=
  C5_claude_reset_requires_tz.1 "Resets 2pm".data 0 (by decide)


-- ──────────────────────────────────────────────────────────────────────
-- C3: the header scan window (spec variant with a parametric width)
-- ──────────────────────────────────────────────────────────────────────

/-- Modelled from the claim's words: "for each recognized section header
the parser scans the next k lines after the header line" — enumerate the
lines, and for each header at index i scan `(lines.drop (i+1)).take k`.
The claim states k = 5; the source slice `lines[(i+1)..(i+5).min(len)]`
is k = 4. -/
def claudeScanSpec (loff now : Int) (k : Nat) (ls : List Str) : List UsageEntry :=
  ls.enum.filterMap (fun il =>
    (headerOf il.2).bind (fun label =>
      claudeExtract loff now label ((ls.drop (il.1 + 1)).take k)))

/-- parse_claude_output with the spec-variant header pass. -/
def parse_claude_output_spec (loff now : Int) (k : Nat) (text : Str) : UsageData :=
  let entries := claudeScanSpec loff now k (splitLines text)
  { provider := "claude".data
  , entries := if entries.isEmpty then claudeFallback loff now text else entries }

lemma filterMap_enumFrom_shift {α β : Type} (f : Nat × α → Option β) (n : Nat)
    (l : List α) :
    (l.enumFrom (n + 1)).filterMap f
      = (l.enumFrom n).filterMap (fun p => f (p.1 + 1, p.2)) := by
  induction l generalizing n with
  | nil => rfl
  | cons x xs ih =>
    simp only [List.enumFrom, List.filterMap_cons]
    rw [ih (n + 1)]

lemma claudeScanSpec_cons (loff now : Int) (k : Nat) (l : Str) (rest : List Str) :
    claudeScanSpec loff now k (l :: rest)
      = ((headerOf l).bind
          (fun label => claudeExtract loff now label (rest.take k))).toList
        ++ claudeScanSpec loff now k rest := by
  unfold claudeScanSpec
  show (List.enumFrom 0 (l :: rest)).filterMap _ = _
  simp only [List.enumFrom, List.filterMap_cons]
  rw [filterMap_enumFrom_shift]
  have harg :
      (fun (p : Nat × Str) =>
        (headerOf p.2).bind (fun label =>
          claudeExtract loff now label (((l :: rest).drop (p.1 + 1 + 1)).take k)))
      = (fun (p : Nat × Str) =>
        (headerOf p.2).bind (fun label =>
          claudeExtract loff now label ((rest.drop (p.1 + 1)).take k))) := by
    funext p
    rw [List.drop_succ_cons]
  rw [show ((l :: rest).drop (0 + 1)).take k = rest.take k by simp]
  cases hh : headerOf l with
  | none => simp [harg, List.enum]
  | some label =>
    cases hx : claudeExtract loff now label (rest.take k) with
    | none => simp [harg, List.enum, hx]
    | some e => simp [harg, List.enum, hx]

lemma claudeScan_eq_spec4 (loff now : Int) (ls : List Str) :
    claudeScan loff now ls = claudeScanSpec loff now 4 ls := by
  induction ls with
  | nil => rfl
  | cons l rest ih =>
    rw [claudeScan, claudeScanSpec_cons, ih]
    cases hh : headerOf l <;> simp [hh]

/-- C3 counterexample: the claim's five-line window disagrees with the
code.  A percentage on the fifth line after "Current session" is outside
the window the code scans (it scans four lines), so the code produces one
entry here while the claimed five-line scan produces two. -/
theorem C3_claude_window_not_five :
    parse_claude_output 0 0
        "Current week (all models)\n3% used\nCurrent session\na\nb\nc\nd\n9% used".data
      ≠ parse_claude_output_spec 0 0 5
        "Current week (all models)\n3% used\nCurrent session\na\nb\nc\nd\n9% used".data := by
  decide

/-- C3 (amended): in parse_claude_output, for each recognized section
header the parser scans the next 4 lines after the header line (the slice
`lines[(i+1)..(i+5).min(len)]`) for a percentage, a reset phrase, and a
spend phrase. -/
theorem C3_claude_window_is_four (loff now : Int) (text : Str) :
    parse_claude_output loff now text = parse_claude_output_spec loff now 4 text := by
  unfold parse_claude_output parse_claude_output_spec
  rw [claudeScan_eq_spec4]


-- ──────────────────────────────────────────────────────────────────────
-- C4: box-glyph stripping
-- ──────────────────────────────────────────────────────────────────────

def isBoxGlyph (c : Char) : Bool := c = '│' || c = '╭' || c = '╰'

/-- Modelled from the claim's words: strip the box-drawing glyphs `│`,
`╭`, `╰` from the edges of a line (around a whitespace trim) before
matching. -/
def specStripLine (l : Str) : Str :=
  trimChars (((l.dropWhile isSpc).dropWhile isBoxGlyph).reverse.dropWhile isSpc
    |>.dropWhile isBoxGlyph).reverse

/-- parse_claude_output with the claimed glyph stripping applied to every
line of the header pass. -/
def parse_claude_output_boxspec (loff now : Int) (text : Str) : UsageData :=
  let entries := claudeScan loff now ((splitLines text).map specStripLine)
  { provider := "claude".data
  , entries := if entries.isEmpty then claudeFallback loff now text else entries }

/-- C4 counterexample: the Claude parser strips no box glyphs.  With a
header boxed as `│Current session│` the code does not recognise the
header (one entry results), while the claimed stripping would (two
entries). -/
theorem C4_claude_does_not_strip_box :
    parse_claude_output 0 0
        "Current week (all models)\n1% used\n│Current session│\n7% used".data
      ≠ parse_claude_output_boxspec 0 0
        "Current week (all models)\n1% used\n│Current session│\n7% used".data := by
  decide

lemma dropWhile_append_of_eq_nil {α : Type} (p : α → Bool) (l r : List α)
    (h : l.dropWhile p = []) : (l ++ r).dropWhile p = r.dropWhile p := by
  induction l with
  | nil => rfl
  | cons c cs ih =>
    by_cases hc : p c
    · rw [List.cons_append, List.dropWhile_cons_of_pos hc]
      rw [List.dropWhile_cons_of_pos hc] at h
      exact ih h
    · rw [List.dropWhile_cons_of_neg hc] at h
      simp at h
lemma dropWhile_append_of_ne_nil {α : Type} (p : α → Bool) (l r : List α)
    (h : l.dropWhile p ≠ []) : (l ++ r).dropWhile p = l.dropWhile p ++ r := by
  induction l with
  | nil => exact absurd rfl h
  | cons c cs ih =>
    by_cases hc : p c
    · rw [List.cons_append, List.dropWhile_cons_of_pos hc,
        List.dropWhile_cons_of_pos hc]
      rw [List.dropWhile_cons_of_pos hc] at h
      exact ih h
    · rw [List.cons_append, List.dropWhile_cons_of_neg hc,
        List.dropWhile_cons_of_neg hc]
      simp

lemma stripPipes_wrap (t : Str) :
    stripPipes ('│' :: (t ++ ['│'])) = stripPipes t := by
  unfold stripPipes
  rw [List.dropWhile_cons_of_pos (by decide)]
  by_cases h : t.dropWhile (fun c => c = '│') = []
  · rw [dropWhile_append_of_eq_nil _ _ _ h, h]
    simp [List.dropWhile_cons_of_pos]
  · rw [dropWhile_append_of_ne_nil _ _ _ h]
    rw [List.reverse_append]
    simp only [List.reverse_cons, List.reverse_nil, List.nil_append,
      List.singleton_append]
    rw [List.dropWhile_cons_of_pos (by decide)]

lemma trimChars_wrap (t : Str) :
    trimChars ('│' :: (t ++ ['│'])) = '│' :: (t ++ ['│']) := by
  unfold trimChars
  rw [List.dropWhile_cons_of_neg (by decide)]
  have h1 : ('│' :: (t ++ ['│'])).reverse = '│' :: (t.reverse ++ ['│']) := by simp
  rw [h1, List.dropWhile_cons_of_neg (by decide)]
  simp

/-- Wrapping a (trimmed) line in `│ … │`. -/
def wrapPipes (l : Str) : Str := '│' :: (trimChars l ++ ['│'])

lemma normalizeLine_wrap (l : Str) :
    normalizeLine (wrapPipes l) = normalizeLine l := by
  unfold normalizeLine wrapPipes
  rw [trimChars_wrap, stripPipes_wrap]

lemma codexScan_map_wrap (loff now : Int) (ls : List Str) :
    ∀ sect, codexScan loff now (ls.map wrapPipes) sect = codexScan loff now ls sect := by
  induction ls with
  | nil => intro sect; rfl
  | cons raw rest ih =>
    intro sect
    simp only [List.map_cons]
    rw [codexScan, codexScan, normalizeLine_wrap]
    by_cases hemp : (normalizeLine raw).isEmpty
    · simp only [hemp, if_true, ih sect]
    · simp only [hemp, if_false]
      cases hsec : codexSectionLine (normalizeLine raw) with
      | some sct => simp only [ih]
      | none =>
        cases hlim : codexLimitLine (normalizeLine raw) with
        | some res => simp only [ih]
        | none => simp only [ih]

lemma geminiScan_map_wrap (loff now : Int) (ls : List Str) :
    geminiScan loff now (ls.map wrapPipes) = geminiScan loff now ls := by
  induction ls with
  | nil => rfl
  | cons raw rest ih =>
    simp only [List.map_cons]
    rw [geminiScan, geminiScan, normalizeLine_wrap, ih]

/-- C4 (amended): the Codex and Gemini parsers strip `│` from the line
edges (so wrapping every trimmed line in `│ … │` leaves their output
unchanged); the Claude parser strips no box glyphs, and `╭`/`╰` are never
stripped from edges (per the counterexample, the claimed stripping of all
three glyphs in all three parsers does not hold). -/
theorem C4_pipe_stripping_codex_gemini (loff now : Int) (ls : List Str)
    (sect : Option Str) :
    codexScan loff now (ls.map wrapPipes) sect = codexScan loff now ls sect
    ∧ geminiScan loff now (ls.map wrapPipes) = geminiScan loff now ls :=
  ⟨codexScan_map_wrap loff now ls sect, geminiScan_map_wrap loff now ls⟩


-- ──────────────────────────────────────────────────────────────────────
-- Decimal rendering of naturals (for the quantified reset-rule claims)
-- ──────────────────────────────────────────────────────────────────────

/-- Decimal rendering of a natural number, most significant digit
first. -/
def natDigits (n : Nat) : Str :=
  if n = 0 then ['0'] else (Nat.digits 10 n).reverse.map (fun d => Char.ofNat (d + 48))

lemma digitChar_isDigit (d : Nat) (h : d < 10) :
    (Char.ofNat (d + 48)).isDigit = true := by
  interval_cases d <;> decide

lemma digitChar_toNat (d : Nat) (h : d < 10) : (Char.ofNat (d + 48)).toNat = d + 48 := by
  interval_cases d <;> decide

lemma natDigits_all_digits (n : Nat) : ∀ c ∈ natDigits n, c.isDigit = true := by
  intro c hc
  unfold natDigits at hc
  by_cases h : n = 0
  · rw [if_pos h] at hc
    simp at hc
    rw [hc]; decide
  · rw [if_neg h] at hc
    rcases List.mem_map.mp hc with ⟨d, hd, hchr⟩
    rw [← hchr]
    exact digitChar_isDigit d (Nat.digits_lt_base (by norm_num) (List.mem_reverse.mp hd))

lemma natDigits_ne_nil (n : Nat) : natDigits n ≠ [] := by
  unfold natDigits
  by_cases h : n = 0
  · rw [if_pos h]; simp
  · rw [if_neg h]
    simp only [ne_eq, List.map_eq_nil_iff, List.reverse_eq_nil_iff]
    exact Nat.digits_ne_nil_iff_ne_zero.mpr h

lemma foldl_rev_digits (L : List Nat) (h : ∀ d ∈ L, d < 10) : ∀ acc : Nat,
    List.foldl (fun a c => a * 10 + (c.toNat - 48)) acc
        (L.reverse.map (fun d => Char.ofNat (d + 48)))
      = acc * 10 ^ L.length + Nat.ofDigits 10 L := by
  induction L with
  | nil => intro acc; simp
  | cons d t ih =>
    intro acc
    have hd : d < 10 := h d (List.mem_cons_self d t)
    have ht : ∀ x ∈ t, x < 10 := fun x hx => h x (List.mem_cons_of_mem d hx)
    simp only [List.reverse_cons, List.map_append, List.map_cons, List.map_nil]
    rw [List.foldl_append, ih ht acc]
    simp only [List.foldl_cons, List.foldl_nil, Nat.ofDigits_cons, List.length_cons]
    rw [digitChar_toNat d hd]
    ring_nf
    omega

lemma parseNat_natDigits (n : Nat) : parseNat (natDigits n) = n := by
  unfold parseNat natDigits
  by_cases h : n = 0
  · rw [if_pos h, h]; decide
  · rw [if_neg h]
    rw [foldl_rev_digits (Nat.digits 10 n) (fun d hd => Nat.digits_lt_base (by norm_num) hd) 0]
    simp [Nat.ofDigits_digits]

lemma parseI64_natDigits (n : Nat) (h : (n : Int) ≤ i64Max) :
    parseI64 (natDigits n) = some ((n : Nat) : Int) := by
  unfold parseI64
  rw [if_neg (by simpa using natDigits_ne_nil n)]
  rw [parseNat_natDigits]
  rw [if_pos h]

lemma wrap64_eq_self (x : Int) (h0 : 0 ≤ x) (h1 : x ≤ i64Max) : wrap64 x = x := by
  unfold wrap64
  rw [Int.emod_eq_of_lt (by omega) (by unfold i64Max at h1; omega)]
  omega

-- ──────────────────────────────────────────────────────────────────────
-- Symbolic behaviour of the gemini reset scanners
-- ──────────────────────────────────────────────────────────────────────

lemma isSpc_eq_false_of_isDigit (c : Char) (h : c.isDigit = true) : isSpc c = false := by
  unfold isSpc
  by_cases e1 : c = ' '
  · subst e1; exact absurd h (by decide)
  by_cases e2 : c = '\t'
  · subst e2; exact absurd h (by decide)
  by_cases e3 : c = '\n'
  · subst e3; exact absurd h (by decide)
  by_cases e4 : c = '\r'
  · subst e4; exact absurd h (by decide)
  by_cases e5 : c = '\x0b'
  · subst e5; exact absurd h (by decide)
  by_cases e6 : c = '\x0c'
  · subst e6; exact absurd h (by decide)
  simp [e1, e2, e3, e4, e5, e6]

lemma takeWhile_digits_append (ds : Str) (hds : ∀ c ∈ ds, c.isDigit = true)
    (x : Char) (hx : x.isDigit = false) (r : Str) :
    (ds ++ x :: r).takeWhile Char.isDigit = ds := by
  induction ds with
  | nil => simp [List.takeWhile_cons_of_neg, hx]
  | cons c cs ih =>
    rw [List.cons_append,
      List.takeWhile_cons_of_pos (hds c (List.mem_cons_self c cs))]
    rw [ih (fun c hc => hds c (List.mem_cons_of_mem _ hc))]

lemma matchHMAt_head_none (c : Char) (cs : Str) (h : c.isDigit = false) :
    matchHMAt (c :: cs) = none := by
  unfold matchHMAt
  rw [List.takeWhile_cons_of_neg (by simp [h])]
  rfl

lemma matchHAt_head_none (c : Char) (cs : Str) (h : c.isDigit = false) :
    matchHAt (c :: cs) = none := by
  unfold matchHAt
  rw [List.takeWhile_cons_of_neg (by simp [h])]
  rfl

lemma matchMAt_head_none (c : Char) (cs : Str) (h : c.isDigit = false) :
    matchMAt (c :: cs) = none := by
  unfold matchMAt
  rw [List.takeWhile_cons_of_neg (by simp [h])]
  rfl

lemma scanFirst_of_some {α : Type} (f : Str → Option α) (s : Str) (v : α)
    (h : f s = some v) : scanFirst f s = some v := by
  cases s with
  | nil => exact h
  | cons c cs => simp [scanFirst, h]

lemma scanFirst_append_of_none {α : Type} (f : Str → Option α) (p rest : Str)
    (h : ∀ c b, (∃ a, p = a ++ c :: b) → f (c :: (b ++ rest)) = none) :
    scanFirst f (p ++ rest) = scanFirst f rest := by
  induction p with
  | nil => rfl
  | cons c p' ih =>
    rw [List.cons_append]
    have hc : f (c :: (p' ++ rest)) = none := h c p' ⟨[], rfl⟩
    rw [scanFirst, hc]
    exact ih (fun c' b' hex => h c' b' (by rcases hex with ⟨a, ha⟩; exact ⟨c :: a, by rw [ha]; rfl⟩))

lemma scanFirst_some_split {α : Type} (f : Str → Option α) (s : Str) (v : α)
    (h : scanFirst f s = some v) : ∃ a b, s = a ++ b ∧ f b = some v := by
  induction s with
  | nil => exact ⟨[], [], rfl, h⟩
  | cons c cs ih =>
    rw [scanFirst] at h
    cases hf : f (c :: cs) with
    | some w =>
      rw [hf] at h
      exact ⟨[], c :: cs, rfl, by rw [hf]; exact h⟩
    | none =>
      rw [hf] at h
      rcases ih h with ⟨a, b, hab, hb⟩
      exact ⟨c :: a, b, by rw [hab]; rfl, hb⟩

lemma matchHMAt_some_mem (s : Str) (r : Str × Str) (h : matchHMAt s = some r) :
    'h' ∈ s ∧ 'm' ∈ s := by
  simp only [matchHMAt] at h
  by_cases he : (s.takeWhile Char.isDigit).isEmpty
  · rw [if_pos he] at h; simp at h
  · rw [if_neg he] at h
    split at h
    · rename_i r2 heq
      have hh : 'h' ∈ s := by
        have hmem : 'h' ∈ s.drop (s.takeWhile Char.isDigit).length := by
          rw [heq]
          exact List.mem_cons_self _ _
        exact List.mem_of_mem_drop hmem
      refine ⟨hh, ?_⟩
      by_cases hm : ((r2.dropWhile isSpc).takeWhile Char.isDigit).isEmpty
      · rw [if_pos hm] at h; simp at h
      · rw [if_neg hm] at h
        split at h
        · rename_i r3 heq2
          have h1 : 'm' ∈ r2.dropWhile isSpc := by
            have hmem : 'm' ∈ (r2.dropWhile isSpc).drop
                ((r2.dropWhile isSpc).takeWhile Char.isDigit).length := by
              rw [heq2]
              exact List.mem_cons_self _ _
            exact List.mem_of_mem_drop hmem
          have h2 : 'm' ∈ r2 := (List.dropWhile_sublist _).mem h1
          have hmem : 'm' ∈ s.drop (s.takeWhile Char.isDigit).length := by
            rw [heq]
            exact List.mem_cons_of_mem _ h2
          exact List.mem_of_mem_drop hmem
        · simp at h
    · simp at h

lemma matchHAt_some_mem (s : Str) (r : Str) (h : matchHAt s = some r) : 'h' ∈ s := by
  simp only [matchHAt] at h
  by_cases he : (s.takeWhile Char.isDigit).isEmpty
  · rw [if_pos he] at h; simp at h
  · rw [if_neg he] at h
    split at h
    · rename_i r2 heq
      have hmem : 'h' ∈ s.drop (s.takeWhile Char.isDigit).length := by
        rw [heq]
        exact List.mem_cons_self _ _
      exact List.mem_of_mem_drop hmem
    · simp at h


lemma isEmpty_false_of_ne_nil {α : Type} (l : List α) (h : l ≠ []) :
    l.isEmpty = false := by
  cases l with
  | nil => exact absurd rfl h
  | cons c cs => rfl

lemma matchHMAt_digits (hds ms tail : Str)
    (h1 : hds ≠ []) (h2 : ∀ c ∈ hds, c.isDigit = true)
    (h3 : ms ≠ []) (h4 : ∀ c ∈ ms, c.isDigit = true) :
    matchHMAt (hds ++ 'h' :: ' ' :: (ms ++ 'm' :: tail)) = some (hds, ms) := by
  have hdw : ((' ' :: (ms ++ 'm' :: tail)).dropWhile isSpc) = ms ++ 'm' :: tail := by
    rw [List.dropWhile_cons_of_pos (by decide)]
    cases ms with
    | nil => exact absurd rfl h3
    | cons m0 mrest =>
      rw [List.cons_append, List.dropWhile_cons_of_neg]
      simp [isSpc_eq_false_of_isDigit m0 (h4 m0 (List.mem_cons_self _ _))]
  simp only [matchHMAt]
  rw [takeWhile_digits_append hds h2 'h' (by decide),
    if_neg (by simp [isEmpty_false_of_ne_nil hds h1])]
  simp only [List.drop_left]
  rw [hdw, takeWhile_digits_append ms h4 'm' (by decide),
    if_neg (by simp [isEmpty_false_of_ne_nil ms h3])]
  simp only [List.drop_left]

lemma matchHAt_digits (hds tail : Str)
    (h1 : hds ≠ []) (h2 : ∀ c ∈ hds, c.isDigit = true) :
    matchHAt (hds ++ 'h' :: tail) = some hds := by
  simp only [matchHAt]
  rw [takeWhile_digits_append hds h2 'h' (by decide),
    if_neg (by simp [isEmpty_false_of_ne_nil hds h1])]
  simp only [List.drop_left]

lemma matchMAt_digits (ms tail : Str)
    (h1 : ms ≠ []) (h2 : ∀ c ∈ ms, c.isDigit = true) :
    matchMAt (ms ++ 'm' :: tail) = some ms := by
  simp only [matchMAt]
  rw [takeWhile_digits_append ms h2 'm' (by decide),
    if_neg (by simp [isEmpty_false_of_ne_nil ms h1])]
  simp only [List.drop_left]

lemma scanFirst_skip_resets {α : Type} (f : Str → Option α) (rest : Str)
    (hf : ∀ c cs, c.isDigit = false → f (c :: cs) = none) :
    scanFirst f ("Resets in ".data ++ rest) = scanFirst f rest := by
  apply scanFirst_append_of_none
  intro c b hex
  rcases hex with ⟨a, ha⟩
  have hc : c ∈ "Resets in ".data := by
    rw [ha]
    exact List.mem_append_right _ (List.mem_cons_self _ _)
  have hall : ∀ x ∈ "Resets in ".data, x.isDigit = false := by decide
  exact hf c _ (hall c hc)

lemma scan_hm_none_of_no_m (phrase : Str) (hno : 'm' ∉ phrase) :
    scanFirst matchHMAt phrase = none := by
  cases hscan : scanFirst matchHMAt phrase with
  | none => rfl
  | some v =>
    rcases scanFirst_some_split _ _ _ hscan with ⟨a, b, hab, hb⟩
    have hmem := (matchHMAt_some_mem b v hb).2
    exact absurd (by rw [hab]; exact List.mem_append_right a hmem) hno

lemma scan_hm_none_of_no_h (phrase : Str) (hno : 'h' ∉ phrase) :
    scanFirst matchHMAt phrase = none := by
  cases hscan : scanFirst matchHMAt phrase with
  | none => rfl
  | some v =>
    rcases scanFirst_some_split _ _ _ hscan with ⟨a, b, hab, hb⟩
    have hmem := (matchHMAt_some_mem b v hb).1
    exact absurd (by rw [hab]; exact List.mem_append_right a hmem) hno

lemma scan_h_none_of_no_h (phrase : Str) (hno : 'h' ∉ phrase) :
    scanFirst matchHAt phrase = none := by
  cases hscan : scanFirst matchHAt phrase with
  | none => rfl
  | some v =>
    rcases scanFirst_some_split _ _ _ hscan with ⟨a, b, hab, hb⟩
    have hmem := matchHAt_some_mem b v hb
    exact absurd (by rw [hab]; exact List.mem_append_right a hmem) hno

lemma m_not_in_h_phrase (N : Nat) :
    'm' ∉ "Resets in ".data ++ (natDigits N ++ ['h']) := by
  intro hmem
  rcases List.mem_append.mp hmem with h | h
  · revert h; decide
  · rcases List.mem_append.mp h with h | h
    · exact absurd (natDigits_all_digits N 'm' h) (by decide)
    · simp at h

lemma h_not_in_m_phrase (M : Nat) :
    'h' ∉ "Resets in ".data ++ (natDigits M ++ ['m']) := by
  intro hmem
  rcases List.mem_append.mp hmem with h | h
  · revert h; decide
  · rcases List.mem_append.mp h with h | h
    · exact absurd (natDigits_all_digits M 'h' h) (by decide)
    · simp at h

/-- C6: parse_gemini_output on the model row
`gemini-2.5-pro … -    98.1% (Resets in 2h 35m)` produces an entry with
percent_remaining 98, percent_used 2, requests absent and reset_minutes
155; and the Gemini reset rules "Nh Mm" → 60N+M, "Nh" → 60N, "Nm" → M
hold (amended: for values whose minute arithmetic stays within `i64`;
larger values overflow, per the counterexample). -/
theorem C6_gemini_row_and_reset_rules :
    ((parse_gemini_output 0 0
        "gemini-2.5-pro                 -    98.1% (Resets in 2h 35m)".data).entries
      = [ { label := "gemini-2.5-pro".data, percent_used := 2, percent_remaining := 98
          , percent_kind := PercentKind.Left, reset_info := "Resets in 2h 35m".data
          , reset_minutes := some 155, spent := none, requests := none } ])
    ∧ (∀ N M : Nat, 60 * (N : Int) + (M : Int) ≤ i64Max →
        parse_gemini_reset
          ("Resets in ".data ++ (natDigits N ++ 'h' :: ' ' :: (natDigits M ++ 'm' :: [])))
          = some (60 * (N : Int) + (M : Int)))
    ∧ (∀ N : Nat, 60 * (N : Int) ≤ i64Max →
        parse_gemini_reset ("Resets in ".data ++ (natDigits N ++ 'h' :: []))
          = some (60 * (N : Int)))
    ∧ (∀ M : Nat, (M : Int) ≤ i64Max →
        parse_gemini_reset ("Resets in ".data ++ (natDigits M ++ 'm' :: []))
          = some (M : Int)) := by
  refine ⟨by decide, ?_, ?_, ?_⟩
  · intro N M hb
    have hN : ((N : Nat) : Int) ≤ i64Max := by omega
    have hM : ((M : Nat) : Int) ≤ i64Max := by omega
    have hscan : scanFirst matchHMAt
        ("Resets in ".data ++ (natDigits N ++ 'h' :: ' ' :: (natDigits M ++ 'm' :: [])))
        = some (natDigits N, natDigits M) := by
      rw [scanFirst_skip_resets _ _ (fun c cs hcd => matchHMAt_head_none c cs hcd)]
      exact scanFirst_of_some _ _ _
        (matchHMAt_digits (natDigits N) (natDigits M) []
          (natDigits_ne_nil N) (natDigits_all_digits N)
          (natDigits_ne_nil M) (natDigits_all_digits M))
    simp only [parse_gemini_reset, hscan, parseI64_natDigits N hN,
      parseI64_natDigits M hM, Option.bind_some, Option.some_bind]
    rw [wrap64_eq_self ((N : Int) * 60) (by omega) (by omega)]
    rw [wrap64_eq_self ((N : Int) * 60 + (M : Int)) (by omega) (by omega)]
    rw [show (N : Int) * 60 + (M : Int) = 60 * (N : Int) + (M : Int) by ring]
  · intro N hb
    have hN : ((N : Nat) : Int) ≤ i64Max := by omega
    have hm : scanFirst matchHMAt
        ("Resets in ".data ++ (natDigits N ++ 'h' :: [])) = none :=
      scan_hm_none_of_no_m _ (m_not_in_h_phrase N)
    have hh : scanFirst matchHAt
        ("Resets in ".data ++ (natDigits N ++ 'h' :: [])) = some (natDigits N) := by
      rw [scanFirst_skip_resets _ _ (fun c cs hcd => matchHAt_head_none c cs hcd)]
      exact scanFirst_of_some _ _ _
        (matchHAt_digits (natDigits N) [] (natDigits_ne_nil N) (natDigits_all_digits N))
    simp only [parse_gemini_reset, hm, hh, parseI64_natDigits N hN,
      Option.bind_some, Option.some_bind]
    rw [wrap64_eq_self ((N : Int) * 60) (by omega) (by omega)]
    rw [show (N : Int) * 60 = 60 * (N : Int) by ring]
  · intro M hb
    have hm : scanFirst matchHMAt
        ("Resets in ".data ++ (natDigits M ++ 'm' :: [])) = none :=
      scan_hm_none_of_no_h _ (h_not_in_m_phrase M)
    have hh : scanFirst matchHAt
        ("Resets in ".data ++ (natDigits M ++ 'm' :: [])) = none :=
      scan_h_none_of_no_h _ (h_not_in_m_phrase M)
    have hM : scanFirst matchMAt
        ("Resets in ".data ++ (natDigits M ++ 'm' :: [])) = some (natDigits M) := by
      rw [scanFirst_skip_resets _ _ (fun c cs hcd => matchMAt_head_none c cs hcd)]
      exact scanFirst_of_some _ _ _
        (matchMAt_digits (natDigits M) [] (natDigits_ne_nil M) (natDigits_all_digits M))
    simp only [parse_gemini_reset, hm, hh, hM, parseI64_natDigits M hb]

/-- C6 counterexample: the normalization rule "Nh Mm" → 60N+M fails for
hour counts past `i64::MAX` — the `i64` parse fails and the phrase yields
absent instead of 60N+M. -/
theorem C6_gemini_rule_overflow :
    parse_reset_minutes_at 0 "Resets in 9223372036854775808h 3m".data "gemini".data 0
        = none
    ∧ (60 * (9223372036854775808 : Int) + 3 ≠ (none : Option Int).getD 0) := by
  exact ⟨by decide, by decide⟩

/-- C6 witness: the quantified "Nh Mm" rule evaluated at N = 2, M = 35
gives 155 minutes. -/
theorem C6_gemini_row_and_reset_rules_witness :
    parse_gemini_reset
        ("Resets in ".data ++ (natDigits 2 ++ 'h' :: ' ' :: (natDigits 35 ++ 'm' :: [])))
      = some (60 * (2 : Int) + (35 : Int)) :=
  C6_gemini_row_and_reset_rules.2.1 2 35 (by decide)


-- ──────────────────────────────────────────────────────────────────────
-- C2: sign of reset_minutes
-- ──────────────────────────────────────────────────────────────────────

lemma tdiv60_nonneg (a : Int) (h : 0 ≤ a) : 0 ≤ Int.tdiv a 60 :=
  Int.tdiv_nonneg h (by decide)

lemma time_wrap_nonneg (off now : Int) (t : Nat) :
    0 ≤ (dayOfNaive (now + off) + 1) * 86400 + (t : Int) - off - now := by
  have he := Int.fdiv_eq_ediv (now + off) (by decide : (0 : Int) ≤ 86400)
  unfold dayOfNaive
  rw [he]
  omega

lemma parse_codex_reset_nonneg (loff : Int) (phrase : Str) (now v : Int)
    (h : parse_codex_reset loff phrase now = some v) : 0 ≤ v := by
  unfold parse_codex_reset at h
  cases hscan : scanFirst matchCodexDateAt phrase with
  | some q =>
    obtain ⟨hds, mds, dds, monthW⟩ := q
    simp only [hscan, Option.bind_eq_some, localToUtc, Option.some.injEq,
      Option.some_bind] at h
    obtain ⟨hour, _, mn, _, day, _, month, _, rd0, _, rd, _, t, _, h⟩ := h
    split at h
    · exact absurd h (by simp)
    · rename_i hneg
      have hv := Option.some.inj h
      omega
  | none =>
    simp only [hscan] at h
    cases hscan2 : scanFirst matchCodexTimeAt phrase with
    | none => simp [hscan2] at h
    | some q =>
      obtain ⟨hds, mds⟩ := q
      simp only [hscan2, Option.bind_eq_some, localToUtc, Option.some.injEq,
        Option.some_bind] at h
      obtain ⟨hour, _, mn, _, t, _, h⟩ := h
      split at h
      · rename_i hle
        simp only [succ_opt, Option.bind_eq_some, localToUtc, Option.some.injEq,
          Option.some_bind] at h
        obtain ⟨tom, htom, h⟩ := h
        split at htom
        · have ht2 := Option.some.inj htom
          subst ht2
          rw [← h]
          exact tdiv60_nonneg _ (time_wrap_nonneg loff now t)
        · exact absurd htom (by simp)
      · rename_i hgt
        rw [← Option.some.inj h]
        exact tdiv60_nonneg _ (by omega)

lemma parse_claude_reset_nonneg (phrase : Str) (now v : Int)
    (h : parse_claude_reset phrase now = some v) : 0 ≤ v := by
  unfold parse_claude_reset at h
  rw [Option.bind_eq_some] at h
  obtain ⟨off, hoff, h⟩ := h
  simp only at h
  cases hscan1 : scanFirst matchClaudeDateTimeAt phrase with
  | some q =>
    obtain ⟨monthW, dds, timeCap⟩ := q
    simp only [hscan1, Option.bind_eq_some, localToUtc, Option.some.injEq,
      Option.some_bind] at h
    obtain ⟨month, _, day, _, hm, _, rd0, _, rd, _, t, _, h⟩ := h
    split at h
    · exact absurd h (by simp)
    · rename_i hneg
      have hv := Option.some.inj h
      omega
  | none =>
    simp only [hscan1] at h
    cases hscan2 : scanFirst matchClaudeTimeAt phrase with
    | some timeCap =>
      simp only [hscan2, Option.bind_eq_some, localToUtc, Option.some.injEq,
        Option.some_bind] at h
      obtain ⟨hm, _, t, _, h⟩ := h
      split at h
      · rename_i hle
        simp only [succ_opt, Option.bind_eq_some, localToUtc, Option.some.injEq,
          Option.some_bind] at h
        obtain ⟨tom, htom, h⟩ := h
        split at htom
        · have ht2 := Option.some.inj htom
          subst ht2
          rw [← h]
          exact tdiv60_nonneg _ (time_wrap_nonneg off now t)
        · exact absurd htom (by simp)
      · rename_i hgt
        rw [← Option.some.inj h]
        exact tdiv60_nonneg _ (by omega)
    | none =>
      simp only [hscan2] at h
      cases hscan3 : scanFirst matchClaudeDateAt phrase with
      | some q =>
        obtain ⟨monthW, dds⟩ := q
        simp only [hscan3, Option.bind_eq_some, localToUtc, Option.some.injEq,
          Option.some_bind] at h
        obtain ⟨month, _, day, _, rd0, _, rd, _, t, _, h⟩ := h
        split at h
        · exact absurd h (by simp)
        · rename_i hneg
          have hv := Option.some.inj h
          omega
      | none => simp [hscan3] at h

/-- C2 (amended): for the codex and claude providers the reset-minutes
computation returns only absent or non-negative values — the date
branches reject negative differences and the time-of-day branches wrap a
past-today time to tomorrow; for the gemini provider the value can be
negative when the scanned hour count overflows `i64` (see the
counterexample), so the invariant does not hold for every provider. -/
theorem C2_reset_minutes_nonneg (loff : Int) (phrase : Str) (now v : Int)
    (h : parse_reset_minutes_at loff phrase "codex".data now = some v
      ∨ parse_reset_minutes_at loff phrase "claude".data now = some v) :
    0 ≤ v := by
  rcases h with h | h
  · unfold parse_reset_minutes_at at h
    split at h
    · exact absurd h (by simp)
    · rw [if_neg (by decide), if_pos rfl] at h
      exact parse_codex_reset_nonneg loff phrase now v h
  · unfold parse_reset_minutes_at at h
    split at h
    · exact absurd h (by simp)
    · rw [if_neg (by decide), if_neg (by decide), if_pos rfl] at h
      exact parse_claude_reset_nonneg phrase now v h

/-- C2 counterexample: a gemini phrase whose hour count makes `60*h`
overflow `i64` wraps to a negative reset_minutes value, violating the
claimed non-negativity. -/
theorem C2_gemini_negative_minutes :
    parse_reset_minutes_at 0 "Resets in 153722867280912931h 0m".data "gemini".data 0
        = some (-9223372036854775756)
    ∧ ¬ (0 : Int) ≤ -9223372036854775756 :=
  ⟨by decide, by decide⟩

/-- C2 witness: the codex phrase "resets 16:25" at the epoch yields 985
minutes, a non-negative value. -/
theorem C2_reset_minutes_nonneg_witness :
    parse_reset_minutes_at 0 "resets 16:25".data "codex".data 0 = some 985
    ∧ (0 : Int) ≤ 985 :=
  ⟨by decide, C2_reset_minutes_nonneg 0 "resets 16:25".data 0 985 (Or.inl (by decide))⟩

end AgentUsage
